import Mathlib

/-!
Verification development for the `ipnep` game engine core
(`game/engine/sched.py`, `game/engine/gm.py`, `game/engine/util.py`).

The Python source is shallowly embedded: pure functions become Lean
functions, stateful classes become explicit state records with
state-passing operations, Python floats become `ℚ` (the float rounding
itself is not modelled), Python exceptions become `Except PyErr` or are
defunctionalised where the source catches them.  Callbacks are modelled
as pure data (an identifier, an argument list and a fixed boolean return
value), which matches every use the verified claims make of them.
-/

/-- Python exception kinds raised by the embedded code paths. -/
inductive PyErr
  | typeError
  | valueError
  | keyError
  | stopIteration
  deriving DecidableEq, Repr

/-- `util.ir`: round to the nearest integer, halves away from zero
(`y = int(x)` truncates towards zero, then
`(y + (x - y >= .5)) if x > 0 else (y - (y - x >= .5))`). -/
def ir (x : ℚ) : ℤ :=
  let y : ℤ := if 0 ≤ x then ⌊x⌋ else -⌊-x⌋
  if 0 < x then y + (if (1 : ℚ) / 2 ≤ x - y then 1 else 0)
  else y - (if (1 : ℚ) / 2 ≤ (y : ℚ) - x then 1 else 0)

/-- Python 2 `round`: round half away from zero (used by the `fps` setter). -/
def roundPy (x : ℚ) : ℤ :=
  if 0 ≤ x then ⌊x + 1 / 2⌋ else -⌊-x + 1 / 2⌋

/-! ## Scheduler (`sched.py`, classes `Timer` and `Scheduler`)

A timeout record is the list
`[seconds, frames, repeat_seconds, repeat_frames, cb, args]` stored in
`Scheduler._cbs`; we name the fields.  The callback is pure data: `cb` is
the function's identity, `args` its stored arguments and `ret` the (fixed)
truthiness of its return value. -/

structure Timeout where
  seconds : Option ℚ
  frames : Option ℚ
  repeatSeconds : Option ℚ
  repeatFrames : Option ℚ
  cb : ℕ
  args : List ℤ
  ret : Bool
  deriving DecidableEq, Repr

/-- `Scheduler` state: `_cbs` (a dict, kept as an association list in
insertion order), `_max_id`, and the `Timer` fields `frame` and `_fps`. -/
structure SchedState where
  cbs : List (ℕ × Timeout)
  maxId : ℕ
  frame : ℚ
  fpsI : ℤ
  deriving DecidableEq, Repr

/-- `Scheduler(fps)`: `Timer.__init__` runs the `fps` setter
(`_fps = int(round(fps))`, `frame = 1. / fps`), then `_cbs = {}`,
`_max_id = 0`. -/
def schedInit (fps : ℚ) : SchedState :=
  { cbs := [], maxId := 0, frame := 1 / fps, fpsI := roundPy fps }

/-- `Scheduler.add_timeout(cb, *args[, seconds][, frames][, repeat_seconds]
[, repeat_frames])`.  Returns the identifier together with the new state. -/
def addTimeout (s : SchedState) (cb : ℕ) (args : List ℤ) (ret : Bool)
    (seconds frames repeatSeconds repeatFrames : Option ℚ) : ℕ × SchedState :=
  let frames := if seconds.isSome then none else frames
  let (repeatSeconds, repeatFrames) :=
    if repeatSeconds.isSome then (repeatSeconds, none)
    else if repeatFrames.isSome then (repeatSeconds, repeatFrames)
    else (seconds, frames)
  let t : Timeout := { seconds := seconds, frames := frames,
                       repeatSeconds := repeatSeconds,
                       repeatFrames := repeatFrames,
                       cb := cb, args := args, ret := ret }
  (s.maxId, { s with cbs := s.cbs ++ [(s.maxId, t)], maxId := s.maxId + 1 })

/-- `Scheduler.rm_timeout(*ids)`: `del self._cbs[i]` for each id, with
`KeyError` caught and ignored, so this is total. -/
def rmTimeout (s : SchedState) (ids : List ℕ) : SchedState :=
  { s with cbs := s.cbs.filter (fun e => decide (e.1 ∉ ids)) }

/-- The body of `Scheduler._update` for one timeout record:
pick the remaining-delay slot (`seconds` if set, else `frames`), subtract
one frame-equivalent (`frame` seconds or `1` frame); when the result is
`≤ 0` the callback fires; a truthy return adds the repeat interval onto
the slot selected by `repeat_seconds`/`repeat_frames` (`data[not total] =
None; data[total] += data[total + 2]`, which raises `TypeError` when that
slot holds `None`); a falsy return deletes the timeout.  Returns the
updated record (`none` when deleted) and whether the callback fired. -/
def stepTimeout (frame : ℚ) (t : Timeout) : Except PyErr (Option Timeout × Bool) :=
  match t.seconds with
  | some sec =>
      let d := sec - frame
      if d ≤ 0 then
        if t.ret then
          match t.repeatSeconds with
          | some rs => .ok (some { t with seconds := some (d + rs), frames := none }, true)
          | none =>
              match t.frames, t.repeatFrames with
              | some fr, some rf =>
                  .ok (some { t with seconds := none, frames := some (fr + rf) }, true)
              | _, _ => .error .typeError
        else .ok (none, true)
      else .ok (some { t with seconds := some d }, false)
  | none =>
      match t.frames with
      | none => .error .typeError
      | some fr =>
          let d := fr - 1
          if d ≤ 0 then
            if t.ret then
              if t.repeatSeconds.isSome then .error .typeError
              else
                match t.repeatFrames with
                | some rf => .ok (some { t with frames := some (d + rf) }, true)
                | none => .error .typeError
            else .ok (none, true)
          else .ok (some { t with frames := some d }, false)

/-- The `for i, data in cbs.items()` loop of `Scheduler._update` over the
snapshot of entries.  With callbacks as pure data the only mutation is the
loop's own `del cbs[i]`, so the `i not in cbs` re-check never fires.
Collects the invoked callbacks as `(id, cb, args)` triples. -/
def updateLoop (frame : ℚ) :
    List (ℕ × Timeout) → Except PyErr (List (ℕ × Timeout) × List (ℕ × ℕ × List ℤ))
  | [] => .ok ([], [])
  | (i, t) :: rest => do
      let (t2, fired) ← stepTimeout frame t
      let (rest2, inv2) ← updateLoop frame rest
      let kept := match t2 with
        | some u => [(i, u)]
        | none => []
      let inv := if fired then [(i, t.cb, t.args)] else []
      .ok (kept ++ rest2, inv ++ inv2)

/-- `Scheduler._update`: run the per-frame loop over `_cbs`. -/
def schedUpdate (s : SchedState) :
    Except PyErr (SchedState × List (ℕ × ℕ × List ℤ)) := do
  let (cbs2, inv) ← updateLoop s.frame s.cbs
  .ok ({ s with cbs := cbs2 }, inv)

/-- A timeout whose repeat interval lives in the same unit as its
remaining delay — the shape `add_timeout` produces unless the caller
explicitly picks the other unit for the repeat. -/
def unitOK (t : Timeout) : Prop :=
  match t.seconds with
  | some _ => t.repeatSeconds.isSome
  | none => t.frames.isSome ∧ t.repeatSeconds = none ∧ t.repeatFrames.isSome

instance : DecidablePred unitOK := by
  intro t
  unfold unitOK
  cases t.seconds <;> infer_instance

/-- Operations used to describe an arbitrary client session against one
scheduler (`add_timeout` / `rm_timeout` / `_update`). -/
inductive SchedOp
  | addT (cb : ℕ) (args : List ℤ) (ret : Bool)
      (seconds frames repeatSeconds repeatFrames : Option ℚ)
  | rmT (ids : List ℕ)
  | updT
  deriving Repr

/-- Apply one operation; returns the identifiers handed out by it.
`_update` never touches `_max_id`: on the `TypeError` path the exception
propagates with some prefix of `_cbs` already processed, which this
development never inspects, so the state is kept as-is there. -/
def applyOp (s : SchedState) : SchedOp → SchedState × List ℕ
  | .addT cb args ret sec fra rsec rfra =>
      let (i, s2) := addTimeout s cb args ret sec fra rsec rfra
      (s2, [i])
  | .rmT ids => (rmTimeout s ids, [])
  | .updT =>
      match schedUpdate s with
      | .ok (s2, _) => (s2, [])
      | .error _ => (s, [])

/-- Run a session; returns the final state and the identifiers returned
by the `add_timeout` calls, in call order. -/
def runOps (s : SchedState) : List SchedOp → SchedState × List ℕ
  | [] => (s, [])
  | op :: rest =>
      let (s2, ids) := applyOp s op
      let (s3, ids2) := runOps s2 rest
      (s3, ids ++ ids2)

/-! ## Nested-value structures (`sched.py`, `call_in_nest`)

Python values fed to `call_in_nest` and the `interp_*` functions:
numbers, strings, `None`, and (arbitrarily nested) lists.  Tuples and
lists are not distinguished, matching every `isinstance(x, (tuple, list))`
test in the source. -/

inductive PyVal
  | num (q : ℚ)
  | strV (s : String)
  | noneV
  | list (l : List PyVal)

/-- `isinstance(arg, (tuple, list))`. -/
def isListB : PyVal → Bool
  | .list _ => true
  | _ => false

/-- Indexing used by `zip(*args)` after non-list arguments have been
repeated: a list argument contributes its `k`-th element, any other
argument contributes itself.  The default is never reached: `k` is always
below every list argument's length. -/
def projAt (k : ℕ) : PyVal → PyVal
  | .list l => l.getD k .noneV
  | v => v

/-- Lengths of the list-valued arguments. -/
def listLens (args : List PyVal) : List ℕ :=
  args.filterMap fun a =>
    match a with
    | .list l => some l.length
    | _ => none

/-- Minimum of a nonempty list of naturals (`zip` truncates to it). -/
def minList : List ℕ → ℕ
  | [] => 0
  | [x] => x
  | x :: y :: xs => min x (minList (y :: xs))

theorem minList_le {xs : List ℕ} {x : ℕ} (h : x ∈ xs) : minList xs ≤ x := by
  induction xs with
  | nil => cases h
  | cons a t ih =>
      cases t with
      | nil => simp at h; simp [minList, h]
      | cons b t2 =>
          rcases List.mem_cons.mp h with h1 | h2
          · simp [minList, h1]
          · simp only [minList]
            exact le_trans (min_le_right _ _) (ih h2)

theorem isListB_eq_true {a : PyVal} (h : isListB a = true) :
    ∃ l, a = PyVal.list l := by
  cases a <;> simp_all [isListB]

theorem sizeOf_projAt_le (k : ℕ) (a : PyVal) : sizeOf (projAt k a) ≤ sizeOf a := by
  cases a with
  | list l =>
      simp only [projAt]
      rcases Nat.lt_or_ge k l.length with h | h
      · have hm : l.getD k PyVal.noneV ∈ l := by
          rw [List.getD_eq_getElem l _ h]
          exact l.getElem_mem h
        have := List.sizeOf_lt_of_mem hm
        simp only [PyVal.list.sizeOf_spec]
        omega
      · rw [List.getD_eq_default _ _ h]
        simp only [PyVal.list.sizeOf_spec, PyVal.noneV.sizeOf_spec]
        have : 1 ≤ sizeOf l := by cases l <;> simp <;> omega
        omega
  | num q => simp [projAt]
  | strV s => simp [projAt]
  | noneV => simp [projAt]

theorem sizeOf_projAt_lt {k : ℕ} {l : List PyVal} (h : k < l.length) :
    sizeOf (projAt k (PyVal.list l)) < sizeOf (PyVal.list l) := by
  simp only [projAt]
  have hm : l.getD k PyVal.noneV ∈ l := by
    rw [List.getD_eq_getElem l _ h]
    exact l.getElem_mem h
  have := List.sizeOf_lt_of_mem hm
  simp only [PyVal.list.sizeOf_spec]
  omega

theorem length_mem_listLens {args : List PyVal} {l : List PyVal}
    (h : PyVal.list l ∈ args) : l.length ∈ listLens args := by
  simp only [listLens, List.mem_filterMap]
  exact ⟨PyVal.list l, h, rfl⟩

theorem sum_sizeOf_proj_lt (args : List PyVal) (k : ℕ)
    (hany : args.any isListB = true) (hk : k < minList (listLens args)) :
    ((args.map (projAt k)).map sizeOf).sum < (args.map sizeOf).sum := by
  rw [List.map_map]
  rcases List.any_eq_true.mp hany with ⟨a, ha, hla⟩
  rcases isListB_eq_true hla with ⟨l, rfl⟩
  have hkl : k < l.length :=
    lt_of_lt_of_le hk (minList_le (length_mem_listLens ha))
  refine List.sum_lt_sum _ _ (fun b _ => sizeOf_projAt_le k b) ?_
  exact ⟨PyVal.list l, ha, sizeOf_projAt_lt hkl⟩

/-- `call_in_nest(f, *args)`: if any argument is a list, every non-list
argument is repeated and the recursion maps over `zip(*args)`, which
truncates to the shortest list argument (`n` is taken from the first list
argument, but `zip` then truncates to the minimum, so only the minimum is
observable); otherwise `f` is applied to the arguments. -/
def callInNest (f : List PyVal → PyVal) (args : List PyVal) : PyVal :=
  if h : args.any isListB then
    let m := minList (listLens args)
    PyVal.list ((List.range m).attach.map fun k =>
      callInNest f (args.map (projAt k.1)))
  else f args
termination_by (args.map sizeOf).sum
decreasing_by
  exact sum_sizeOf_proj_lt args k.1 h (List.mem_range.mp k.2)

theorem callInNest_of_no_list (f : List PyVal → PyVal) (args : List PyVal)
    (h : args.any isListB = false) : callInNest f args = f args := by
  unfold callInNest
  simp [h]

theorem callInNest_of_list (f : List PyVal → PyVal) (args : List PyVal)
    (h : args.any isListB = true) :
    callInNest f args =
      PyVal.list ((List.range (minList (listLens args))).map fun k =>
        callInNest f (args.map (projAt k))) := by
  rw [callInNest.eq_def]
  rw [dif_pos h]
  exact congrArg PyVal.list
    (List.attach_map_val (List.range (minList (listLens args)))
      (fun k => callInNest f (args.map (projAt k))))

theorem projAt_of_not_list {a : PyVal} (h : isListB a = false) (k : ℕ) :
    projAt k a = a := by
  cases a <;> simp_all [isListB, projAt]

theorem map_range_getD {α β : Type _} (g : α → β) (l : List α) (d : α) :
    (List.range l.length).map (fun k => g (l.getD k d)) = l.map g := by
  apply List.ext_getElem
  · simp
  · intro i h1 h2
    simp only [List.getElem_map, List.getElem_range]
    rw [List.getD_eq_getElem]

/-- `call_in_nest` over two list arguments: `zip` pairs them up to the
shorter length. -/
theorem callInNest_pair (f : List PyVal → PyVal) (xs ys : List PyVal) :
    callInNest f [PyVal.list xs, PyVal.list ys] =
      PyVal.list ((List.range (min xs.length ys.length)).map fun k =>
        callInNest f [xs.getD k PyVal.noneV, ys.getD k PyVal.noneV]) := by
  rw [callInNest_of_list _ _ (by simp [isListB])]
  simp [listLens, minList, projAt]

/-- `call_in_nest` broadcast: a non-list argument is repeated against a
list argument. -/
theorem callInNest_broadcast (f : List PyVal → PyVal) (a : PyVal)
    (ys : List PyVal) (h : isListB a = false) :
    callInNest f [a, PyVal.list ys] =
      PyVal.list (ys.map fun y => callInNest f [a, y]) := by
  rw [callInNest_of_list _ _ (by simp [isListB])]
  have h1 : listLens [a, PyVal.list ys] = [ys.length] := by
    cases a <;> simp_all [listLens, isListB]
  rw [h1]
  simp only [minList]
  have h2 : ∀ k, [a, PyVal.list ys].map (projAt k) =
      [a, ys.getD k PyVal.noneV] := by
    intro k
    cases a <;> simp_all [isListB, projAt]
  simp only [h2]
  exact congrArg PyVal.list
    (map_range_getD (fun y => callInNest f [a, y]) ys PyVal.noneV)

/-- `call_in_nest` over two equal-length lists walks them in lockstep. -/
theorem callInNest_pair_eqlen (f : List PyVal → PyVal) (xs ys : List PyVal)
    (h : xs.length = ys.length) :
    callInNest f [PyVal.list xs, PyVal.list ys] =
      PyVal.list (List.zipWith (fun x y => callInNest f [x, y]) xs ys) := by
  rw [callInNest_pair]
  congr 1
  apply List.ext_getElem
  · simp [h]
  · intro i h1 h2
    simp only [List.getElem_map, List.getElem_range, List.getElem_zipWith]
    have hx : i < xs.length := by simp [h] at h1; omega
    have hy : i < ys.length := by simp [h] at h1; omega
    rw [List.getD_eq_getElem _ _ hx, List.getD_eq_getElem _ _ hy]

/-! ## Linear waypoint interpolation (`sched.py`, `interp_linear`)

`interp_linear` builds value/time lists from the waypoints (times may be
omitted in any but the last waypoint; omitted times are evenly spaced),
forces the first time to `0`, and returns the `send` method of a started
generator.  The generator is embedded as an explicit state machine:
`loop` is the generator's main loop, `afterFinal` is the point just after
the final value was yielded (one more `yield None` remains), `exhausted`
is past the final `return`, where `send` raises `StopIteration`. -/

mutual

/-- `sched._cmp_structure`: whether two nested-list structures match. -/
def cmpStructure : PyVal → PyVal → Bool
  | .list xs, .list ys => cmpStructureL xs ys
  | .list _, _ => false
  | _, .list _ => false
  | _, _ => true

def cmpStructureL : List PyVal → List PyVal → Bool
  | [], [] => true
  | x :: xs, y :: ys => cmpStructure x y && cmpStructureL xs ys
  | _, _ => false

end

mutual

/-- Whether every leaf of a nested structure is a number. -/
def allNum : PyVal → Bool
  | .num _ => true
  | .strV _ => false
  | .noneV => false
  | .list l => allNumL l

def allNumL : List PyVal → Bool
  | [] => true
  | x :: xs => allNum x && allNumL xs

end

/-- Numeric reading of a value.  Only used where the source has already
checked `isinstance(..., (int, float))` on the discriminating argument;
where the source would raise a `TypeError` on a non-number (a path no
verified claim exercises), this totalisation returns `0`. -/
def PyVal.asNum : PyVal → ℚ
  | .num q => q
  | _ => 0

/-- `interp_val(r, v1, v2, v0)`: interpolate where `v2` is a number, else
keep the initial value `v0`. -/
def interpVal : List PyVal → PyVal
  | [r, v1, v2, v0] =>
      match v2 with
      | .num b => .num (r.asNum * (b - v1.asNum) + v1.asNum)
      | _ => v0
  | _ => .noneV

/-- `last_val(vl, v0)`: the final value where it is a number, else the
initial value. -/
def lastVal : List PyVal → PyVal
  | [vl, v0] =>
      match vl with
      | .num _ => vl
      | _ => v0
  | _ => .noneV

/-- One waypoint: a `(v, t)` pair when its structure matches the last
waypoint's (the last always matches itself), a bare value otherwise.
`none` when Python would raise while indexing `w[0]`/`w[1]` or when the
time slot is not a number (arithmetic on it would raise later). -/
def extractWaypoint (last : PyVal) (w : PyVal) : Option (PyVal × Option ℚ) :=
  if cmpStructure w last then
    match w with
    | .list (v :: tv :: _) =>
        match tv with
        | .num q => some (v, some q)
        | _ => none
    | _ => none
  else some (w, none)

/-- The `vs`/`ts` extraction loop of `interp_linear`; `none` on an empty
waypoint list (`waypoints[-1]` raises `IndexError`). -/
def extractWaypoints (ws : List PyVal) : Option (List PyVal × List (Option ℚ)) :=
  match ws.getLast? with
  | none => none
  | some last => (ws.mapM (extractWaypoint last)).map List.unzip

/-- `ts[0] = 0`. -/
def setHead0 : List (Option ℚ) → List (Option ℚ)
  | [] => []
  | _ :: rest => some 0 :: rest

/-- Index of the last explicit time strictly before `i` (the `t0` index
of the source's group-filling loop). -/
def prevSome (ts : List (Option ℚ)) (i : ℕ) : ℕ :=
  (((List.range i).reverse).find? (fun j => (ts.getD j none).isSome)).getD 0

/-- Index of the first explicit time at or after `i + 1` (the `i1` index
of the source's group-filling loop; the last time is always explicit). -/
def nextSome (ts : List (Option ℚ)) (i : ℕ) : ℕ :=
  (((List.range ts.length).drop (i + 1)).find?
    (fun j => (ts.getD j none).isSome)).getD 0

/-- Fill in the omitted times: a run of omitted times between explicit
times `t0` (at index `p`) and `t1` (at index `n`) is spaced evenly,
`ts[i] = t0 + (t1 - t0) / (n - p) * (i - p)` — exactly the source's
`t0 + dt * (i - (i0 - 1))` with `dt = (ts[i1] - t0) / (i1 - (i0 - 1))`.
The fallback `0` is unreachable: index `0` and the last index always hold
explicit times. -/
def filledTimes (ts : List (Option ℚ)) : List ℚ :=
  (List.range ts.length).map fun i =>
    match ts.getD i none with
    | some t => t
    | none =>
        let p := prevSome ts i
        let n := nextSome ts i
        match ts.getD p none, ts.getD n none with
        | some t0, some t1 => t0 + ((t1 - t0) / ((n : ℚ) - (p : ℚ))) * ((i : ℚ) - (p : ℚ))
        | _, _ => 0

/-- Program point of the embedded `val_gen` generator. -/
inductive ILState
  | loop
  | afterFinal
  | exhausted
  deriving DecidableEq, Repr

/-- The started `val_gen` generator of `interp_linear`. -/
structure LinInterp where
  vs : List PyVal
  ts : List ℚ
  st : ILState

/-- `bisect.bisect(ts, t)` for the sorted lists built here: the number of
elements `≤ t`. -/
def bisectR (ts : List ℚ) (t : ℚ) : ℕ :=
  ts.countP (fun x => decide (x ≤ t))

/-- One `send(t)` on the generator: before the first waypoint yield the
first value; past the end yield the final value (numeric leaves from the
last waypoint, others from the first), then `yield None`, then the
generator is exhausted and `send` raises `StopIteration`; otherwise
linearly interpolate between the bracketing waypoints. -/
def ilSend (g : LinInterp) (t : ℚ) : Except PyErr (Option PyVal × LinInterp) :=
  match g.st with
  | .exhausted => .error .stopIteration
  | .afterFinal => .ok (none, { g with st := .exhausted })
  | .loop =>
      let i := bisectR g.ts t
      if i = 0 then .ok (some (g.vs.headD .noneV), g)
      else if i = g.ts.length then
        .ok (some (callInNest lastVal [g.vs.getLastD .noneV, g.vs.headD .noneV]),
             { g with st := .afterFinal })
      else
        let v1 := g.vs.getD (i - 1) .noneV
        let v2 := g.vs.getD i .noneV
        let t1 := g.ts.getD (i - 1) 0
        let t2 := g.ts.getD i 0
        let r : ℚ := if t2 = t1 then 1 else (t - t1) / (t2 - t1)
        .ok (some (callInNest interpVal [.num r, v1, v2, g.vs.headD .noneV]), g)

/-- `interp_linear(*waypoints)`: build the waypoint lists and return the
started generator (its `send` bound method). -/
def interp_linear (ws : List PyVal) : Option LinInterp :=
  (extractWaypoints ws).map fun p =>
    { vs := p.1, ts := filledTimes (setHead0 p.2), st := .loop }

/-! ## Graphics (`gm.py`, class `Graphic`)

Pygame surfaces are embedded as terms recording their provenance, size
and transparency flags (`get_alpha() is not None` / colorkey set); the
environment operations the engine delegates to pygame — the size of a
rotated surface (`rotozoom`) and float `sin`/`cos` — are parameters
(`GEnv`).  The `is` identity test `new_sfc is sfc` in `transform` becomes
structural equality, which is faithful here: every constructor a backend
applies yields a term structurally distinct from its argument, so equality
holds exactly when the backend returned its input unchanged.

Transform stages are keyed by the builtin names (custom function-keyed
transforms and the `position`/`before`/`after` keywords of `transform`
are outside the model; no verified claim uses them).  The apply/undo
closures of the builtin backends are defunctionalised as `Fx` values
interpreted by `applyEffect`/`undoEffect`. -/

structure PRect where
  x : ℤ
  y : ℤ
  w : ℤ
  h : ℤ
  deriving DecidableEq, Repr

/-- `Rect.move`. -/
def PRect.move (r : PRect) (dx dy : ℤ) : PRect :=
  ⟨r.x + dx, r.y + dy, r.w, r.h⟩

/-- `Rect.contains`: the argument lies completely inside `outer`. -/
def PRect.contains (outer inner : PRect) : Bool :=
  decide (outer.x ≤ inner.x ∧ inner.x + inner.w ≤ outer.x + outer.w ∧
          outer.y ≤ inner.y ∧ inner.y + inner.h ≤ outer.y + outer.h)

inductive Surface
  | mkBase (w h : ℤ) (alpha ckey : Bool)
  | scaledS (src : Surface) (w h : ℤ)
  | flippedS (src : Surface) (x y : Bool)
  | croppedS (src : Surface) (r : PRect) (alpha : Bool)
  | rotatedS (src : Surface) (angle : ℚ) (w h : ℤ)
  | convAlphaS (src : Surface)
  deriving DecidableEq, Repr

/-- Surface width. -/
def Surface.wd : Surface → ℤ
  | .mkBase w _ _ _ => w
  | .scaledS _ w _ => w
  | .flippedS s _ _ => s.wd
  | .croppedS _ r _ => r.w
  | .rotatedS _ _ w _ => w
  | .convAlphaS s => s.wd

/-- Surface height. -/
def Surface.ht : Surface → ℤ
  | .mkBase _ h _ _ => h
  | .scaledS _ _ h => h
  | .flippedS s _ _ => s.ht
  | .croppedS _ r _ => r.h
  | .rotatedS _ _ _ h => h
  | .convAlphaS s => s.ht

/-- `get_alpha() is not None`: `smoothscale`/`flip` preserve the source
format, a fresh `pg.Surface` has no alpha unless `convert_alpha`-ed, and
`rotozoom` always returns a per-pixel-alpha surface. -/
def Surface.alphaF : Surface → Bool
  | .mkBase _ _ a _ => a
  | .scaledS s _ _ => s.alphaF
  | .flippedS s _ _ => s.alphaF
  | .croppedS _ _ a => a
  | .rotatedS _ _ _ _ => true
  | .convAlphaS _ => true

/-- `get_colorkey() is not None`. -/
def Surface.ckeyF : Surface → Bool
  | .mkBase _ _ _ c => c
  | .scaledS s _ _ => s.ckeyF
  | .flippedS s _ _ => s.ckeyF
  | .croppedS _ _ _ => false
  | .rotatedS _ _ _ _ => false
  | .convAlphaS _ => false

/-- Arguments of one application of a builtin transform, as stored in
`_transforms` (`resize` keeps the raw, possibly-`None`, `w`/`h`). -/
inductive TArgs
  | resizeA (w h : Option ℤ) (about : ℚ × ℚ)
  | cropA (r : PRect)
  | flipA (x y : Bool)
  | rotateA (angle : ℚ) (about : Option (ℚ × ℚ))
  deriving DecidableEq, Repr

/-- The `_transforms` key a builtin argument pack belongs to. -/
def tkey : TArgs → String
  | .resizeA _ _ _ => "resize"
  | .cropA _ => "crop"
  | .flipA _ _ => "flip"
  | .rotateA _ _ => "rotate"

/-- Defunctionalised `apply_fn`/`undo_fn` closures of the builtins. -/
inductive Fx
  | resizeFx (sx sy : ℚ) (ox oy : ℤ)
  | cropFx (dx dy : ℤ) (r : PRect)
  | flipFx (x y : Bool)
  | rotateFx (angle : ℚ) (ox oy : ℤ)
  deriving DecidableEq, Repr

/-- One `_transforms` entry:
`(args, previous_surface, apply_fn, undo_fn)`. -/
structure TEntry where
  args : Option TArgs
  sfc : Surface
  applyFx : Option Fx
  undoFx : Option Fx
  deriving DecidableEq, Repr

/-- `Graphic` state (the drawing-related attributes; `fn`, `manager`,
`layer`, `blit_flags`, `visible` and the pluggable `scale_fn`/`rotate_fn`
are not needed by the claims about transforms). -/
structure Graphic where
  surface : Surface
  scaleG : ℚ × ℚ
  croppedRect : Option PRect
  flippedG : Bool × Bool
  angleG : ℚ
  rect : PRect
  postrotRect : PRect
  rotOffset : ℤ × ℤ
  opaqueG : Bool
  lastRect : PRect
  lastPostrotRect : PRect
  transforms : List (String × TEntry)
  rotateThreshold : ℚ
  dirtyG : List PRect
  deriving DecidableEq, Repr

/-- The builtin `apply_fn` closures. -/
def applyEffect : Fx → Graphic → Graphic
  | .resizeFx sx sy ox oy, g =>
      { g with scaleG := (sx, sy), rect := g.rect.move ox oy }
  | .cropFx dx dy r, g =>
      { g with rect := g.rect.move dx dy, croppedRect := some r }
  | .flipFx x y, g => { g with flippedG := (x, y) }
  | .rotateFx a ox oy, g => { g with angleG := a, rotOffset := (ox, oy) }

/-- The builtin `undo_fn` closures. -/
def undoEffect : Fx → Graphic → Graphic
  | .resizeFx _ _ ox oy, g =>
      { g with scaleG := (1, 1), rect := g.rect.move (-ox) (-oy) }
  | .cropFx dx dy _, g =>
      { g with rect := g.rect.move (-dx) (-dy), croppedRect := none }
  | .flipFx _ _, g => { g with flippedG := (false, false) }
  | .rotateFx _ _ _, g => { g with angleG := 0, rotOffset := (0, 0) }

/-- `Graphic.sfc_before_transform`. -/
def sfcBeforeTransform (g : Graphic) (key : String) : Surface :=
  match g.transforms.lookup key with
  | some e => e.sfc
  | none => g.surface

/-- `Graphic._set_sfc`: set surface and opacity, re-derive `_rect` from
the pre-`rotate` surface and `_postrot_rect` from the new surface. -/
def setSfc (g : Graphic) (s : Surface) : Graphic :=
  let opq := !s.alphaF && !s.ckeyF
  let g1 := { g with opaqueG := opq, surface := s }
  let pre := sfcBeforeTransform g1 "rotate"
  let r : PRect := ⟨g1.rect.x, g1.rect.y, pre.wd, pre.ht⟩
  { g1 with rect := r,
            postrotRect := ⟨r.x + g1.rotOffset.1, r.y + g1.rotOffset.2,
                            s.wd, s.ht⟩ }

/-- `Graphic._mk_dirty`. -/
def mkDirtyG (g : Graphic) : Graphic :=
  { g with dirtyG := [g.lastPostrotRect, g.postrotRect] }

/-- Environment operations delegated to pygame / libm: the size of the
surface `rotozoom` produces, and float `sin`/`cos`. -/
structure GEnv where
  rotSize : ℤ → ℤ → ℚ → ℤ × ℤ
  sinQ : ℚ → ℚ
  cosQ : ℚ → ℚ

/-- `Graphic._resize(sfc, last, w, h, about)`. -/
def resizeBk (sfc : Surface) (last : Option TArgs) (w0 h0 : Option ℤ)
    (about : ℚ × ℚ) : Option Surface × Option Fx × Option Fx :=
  let sw := sfc.wd
  let sh := sfc.ht
  let w := w0.getD sw
  let h := h0.getD sh
  let noChange : Bool := match last with
    | some (.resizeA lw lh lab) => decide (lw = some w ∧ lh = some h ∧ lab = about)
    | _ => false
  if noChange then (none, none, none)
  else if w = sw ∧ h = sh ∧ about = ((0 : ℚ), (0 : ℚ)) then (some sfc, none, none)
  else
    let sx : ℚ := (w : ℚ) / (sw : ℚ)
    let sy : ℚ := (h : ℚ) / (sh : ℚ)
    let ox := ir ((1 - sx) * about.1)
    let oy := ir ((1 - sy) * about.2)
    (some (.scaledS sfc w h), some (.resizeFx sx sy ox oy),
     some (.resizeFx sx sy ox oy))

/-- `Graphic._crop(sfc, last, rect)`. -/
def cropBk (sfc : Surface) (last : Option TArgs) (r : PRect) :
    Option Surface × Option Fx × Option Fx :=
  let start : PRect := ⟨0, 0, sfc.wd, sfc.ht⟩
  let noChange : Bool := match last with
    | some (.cropA lr) => decide (r = lr)
    | _ => false
  if noChange then (none, none, none)
  else if r = start then (some sfc, none, none)
  else
    let inside := start.contains r
    let alpha := !sfc.alphaF && !sfc.ckeyF && !inside
    (some (.croppedS sfc r alpha), some (.cropFx r.x r.y r),
     some (.cropFx r.x r.y r))

/-- `Graphic._flip(sfc, last, x, y)`. -/
def flipBk (sfc : Surface) (last : Option TArgs) (x y : Bool) :
    Option Surface × Option Fx × Option Fx :=
  let noChange : Bool := match last with
    | some (.flipA lx ly) => decide (lx = x ∧ ly = y)
    | _ => false
  if noChange then (none, none, none)
  else if !x && !y then (some sfc, none, none)
  else (some (.flippedS sfc x y), some (.flipFx x y), some (.flipFx x y))

/-- `Graphic._rotate(sfc, last, angle, about)`. -/
def rotateBk (env : GEnv) (thresh : ℚ) (sfc : Surface) (last : Option TArgs)
    (angle : ℚ) (about : Option (ℚ × ℚ)) :
    Option Surface × Option Fx × Option Fx :=
  let cx : ℚ := (sfc.wd : ℚ) / 2
  let cy : ℚ := (sfc.ht : ℚ) / 2
  let ab := about.getD (cx, cy)
  let noChange : Bool := match last with
    | some (.rotateA la lab) =>
        decide (|angle - la| < thresh ∧ ab = lab.getD (cx, cy))
    | _ => false
  if noChange then (none, none, none)
  else if |angle| < thresh then (some sfc, none, none)
  else
    let sfc2 := if !sfc.alphaF && !sfc.ckeyF then Surface.convAlphaS sfc else sfc
    let wh := env.rotSize sfc2.wd sfc2.ht angle
    let sn := env.sinQ angle
    let co := env.cosQ angle
    let vx := cx - ab.1
    let vy := cy - ab.2
    let axNew := (wh.1 : ℚ) / 2 - (co * vx + sn * vy)
    let ayNew := (wh.2 : ℚ) / 2 - (-sn * vx + co * vy)
    let ox := ir (ab.1 - axNew)
    let oy := ir (ab.2 - ayNew)
    (some (.rotatedS sfc2 angle wh.1 wh.2), some (.rotateFx angle ox oy),
     some (.rotateFx angle ox oy))

/-- Dispatch `getattr(self, '_' + transform_fn)(sfc, last_args, *args)`. -/
def runBuiltin (env : GEnv) (g : Graphic) (sfc : Surface)
    (last : Option TArgs) : TArgs → Option Surface × Option Fx × Option Fx
  | .resizeA w h ab => resizeBk sfc last w h ab
  | .cropA r => cropBk sfc last r
  | .flipA x y => flipBk sfc last x y
  | .rotateA a ab => rotateBk env g.rotateThreshold sfc last a ab

/-- A placeholder entry used only as the (never reached) default of list
indexing inside `transformG`. -/
def dummyEntry : String × TEntry :=
  ("", { args := none, sfc := .mkBase 0 0 false false,
         applyFx := none, undoFx := none })

/-- `Graphic.transform(transform_fn, *args)` with no `position`/`before`/
`after` keyword: locate the stage, undo every stage from it onwards, run
the backend, then either (identity result) just reinstall the surface, or
apply the new effect, install the new surface (`_set_sfc` still sees the
old `_transforms`, so the pre-`rotate` lookup can be stale), store the
entry, truncate `_transforms` after the stage and re-apply the following
stages that have stored arguments.  The re-application recursion is fed
by `fuel`; every claim below is settled on paths where it is not
consumed, and `fuel = 0` leaves the graphic unchanged. -/
def transformG (env : GEnv) : ℕ → Graphic → TArgs → Graphic
  | 0, g, _ => g
  | fuel + 1, g, targs =>
      let key := tkey targs
      let ts := g.transforms
      match ts.findIdx? (fun e => e.1 == key) with
      | some p =>
          let entry := (ts.getD p dummyEntry).2
          let lastArgs := entry.args
          let sfc := entry.sfc
          let lastNewSfc :=
            if p = ts.length - 1 then g.surface
            else (ts.getD (p + 1) dummyEntry).2.sfc
          let gU := ((ts.drop p).reverse).foldl
            (fun acc e =>
              match e.2.undoFx with
              | some fx => undoEffect fx acc
              | none => acc) g
          let bres := runBuiltin env gU sfc lastArgs targs
          let newSfc? := bres.1
          let applyF := if bres.2.1.isSome then bres.2.1 else entry.applyFx
          let undoF := if bres.2.2.isSome then bres.2.2 else entry.undoFx
          let isIdentity := match newSfc? with
            | some s => decide (s = sfc)
            | none => false
          if isIdentity then setSfc gU sfc
          else
            let g3 := match applyF with
              | some fx => applyEffect fx gU
              | none => gU
            let newPair : Surface × TArgs := match newSfc? with
              | some s => (s, targs)
              | none => (lastNewSfc, lastArgs.getD targs)
            let g4 := setSfc g3 newPair.1
            let ts3 := ts.set p (key, { args := some newPair.2, sfc := sfc,
                                        applyFx := applyF, undoFx := undoF })
            let g5 := { g4 with transforms := ts3.take (p + 1) }
            let g6 := (ts3.drop (p + 1)).foldl
              (fun acc e =>
                match e.2.args with
                | some a => transformG env fuel acc a
                | none => acc) g5
            mkDirtyG g6
      | none =>
          let sfc := g.surface
          let bres := runBuiltin env g sfc none targs
          let newSfc? := bres.1
          let isIdentity := match newSfc? with
            | some s => decide (s = sfc)
            | none => false
          if isIdentity then
            setSfc { g with transforms :=
              g.transforms ++ [(key, { args := some targs, sfc := sfc,
                                       applyFx := none, undoFx := none })] } sfc
          else
            let g3 := match bres.2.1 with
              | some fx => applyEffect fx g
              | none => g
            let newSfc2 := match newSfc? with
              | some s => s
              | none => g.surface
            let g4 := setSfc g3 newSfc2
            let g5 := { g4 with transforms :=
              g.transforms ++ [(key, { args := some targs, sfc := sfc,
                                       applyFx := bres.2.1,
                                       undoFx := bres.2.2 })] }
            mkDirtyG g5

/-- `Graphic.resize(w, h, about)`. -/
def resizeG (env : GEnv) (fuel : ℕ) (g : Graphic) (w h : Option ℤ)
    (about : ℚ × ℚ) : Graphic :=
  transformG env fuel g (.resizeA w h about)

/-- `Graphic.flip(x, y)`. -/
def flipG (env : GEnv) (fuel : ℕ) (g : Graphic) (x y : Bool) : Graphic :=
  transformG env fuel g (.flipA x y)

/-- `Graphic.rotate(angle, about)`. -/
def rotateG (env : GEnv) (fuel : ℕ) (g : Graphic) (angle : ℚ)
    (about : Option (ℚ × ℚ)) : Graphic :=
  transformG env fuel g (.rotateA angle about)

/-- The `rect` property setter: a pure move updates `_rect` and
`_postrot_rect` and marks dirty; a size change only calls
`resize(*sz)` — the requested position is not applied there. -/
def setRectG (env : GEnv) (fuel : ℕ) (g : Graphic) (r : PRect) : Graphic :=
  if r = g.rect then g
  else if r.w = g.rect.w ∧ r.h = g.rect.h then
    mkDirtyG { g with
               rect := r,
               postrotRect := ⟨r.x + g.rotOffset.1, r.y + g.rotOffset.2,
                               g.postrotRect.w, g.postrotRect.h⟩ }
  else resizeG env fuel g (some r.w) (some r.h) ((0 : ℚ), (0 : ℚ))

/-- The double value of `2 * math.pi / 500`, the default
`rotate_threshold`. -/
def rotateThresholdDefault : ℚ := 0.012566370614359172

/-- `Graphic.__init__(img, pos)`: `_transforms` is empty while `_set_sfc`
runs, `last_rect` and `_last_postrot_rect` are copies of `_rect`, then
`_transforms` maps every builtin to `(None, self._surface, None, None)`. -/
def mkGraphic (img : Surface) (px py : ℤ) : Graphic :=
  let r0 : PRect := ⟨px, py, img.wd, img.ht⟩
  let g0 : Graphic :=
    { surface := img, scaleG := (1, 1), croppedRect := none,
      flippedG := (false, false), angleG := 0, rect := r0,
      postrotRect := r0, rotOffset := (0, 0), opaqueG := false,
      lastRect := r0, lastPostrotRect := r0, transforms := [],
      rotateThreshold := rotateThresholdDefault, dirtyG := [] }
  let g1 := setSfc g0 img
  let g2 := { g1 with lastRect := g1.rect, lastPostrotRect := g1.rect }
  { g2 with
    transforms := ["crop", "flip", "resize", "rotate"].map
      (fun k => (k, { args := none, sfc := g2.surface,
                      applyFx := none, undoFx := none })) }

/-- Getter of the `flipped_x` property. -/
def flipped_x (g : Graphic) : Bool := g.flippedG.1

/-- Setter of the `flipped_x` property: `self.flip(v, self._flipped[1])`. -/
def set_flipped_x (env : GEnv) (fuel : ℕ) (g : Graphic) (v : Bool) : Graphic :=
  flipG env fuel g v g.flippedG.2

/-- Getter of the `flipped_y` property as the class ends up defining it:
the `def flipped_y` getter body reads `self._flipped[0]`, and the
`@flipped_x.setter` decorator on the setter then rebinds `flipped_y` to a
property whose getter is `flipped_x`'s — either way the x-axis flag is
returned. -/
def flipped_y (g : Graphic) : Bool := g.flippedG.1

/-- Setter of the `flipped_y` property:
`self.flip(self._flipped[0], v)`. -/
def set_flipped_y (env : GEnv) (fuel : ℕ) (g : Graphic) (v : Bool) : Graphic :=
  flipG env fuel g g.flippedG.1 v

/-- A concrete environment for witnesses: rotation keeps the size,
`sin = 0`, `cos = 1`.  (No claim below depends on these values.) -/
def trivEnv : GEnv :=
  { rotSize := fun w h _ => (w, h), sinQ := fun _ => 0, cosQ := fun _ => 1 }

/-! ## GraphicsManager (`gm.py`, class `GraphicsManager`)

Layer keys are `Option ℤ`: `None` is the reserved overlay layer and in
Python 2 sorts before every other value.  Member graphics are identified
by `gid` (object identity); the manager-relevant attributes of a member
(`layer`, `rect`, `last_rect`, `visible`, `was_visible`) are carried in
`GMGraphic`.  The per-layer sets are unordered in Python; they are kept
as lists here and no claim depends on their order. -/

/-- Python 2 ordering on layer keys: `None` sorts before every int. -/
def layerLtB : Option ℤ → Option ℤ → Bool
  | none, none => false
  | none, some _ => true
  | some _, none => false
  | some a, some b => decide (a < b)

def layerLeB (a b : Option ℤ) : Bool := !layerLtB b a

/-- Sorted insertion, used to model Python's `sorted`. -/
def insertLayer (x : Option ℤ) : List (Option ℤ) → List (Option ℤ)
  | [] => [x]
  | y :: ys => if layerLeB x y then x :: y :: ys else y :: insertLayer x ys

/-- `sorted(set(ls))`. -/
def sortLayers (ls : List (Option ℤ)) : List (Option ℤ) :=
  ls.dedup.foldr insertLayer []

/-- A member graphic as the manager sees it. -/
structure GMGraphic where
  gid : ℕ
  layer : Option ℤ
  rect : PRect
  lastRect : PRect
  visible : Bool
  wasVisible : Bool
  deriving DecidableEq, Repr

/-- `GraphicsManager` state: the `{layer: set-of-graphics}` dict
`graphics`, the sorted layer-key list `layers`, the overlay (by
identity), the pending dirty list `_gm_dirty` and whether a drawing
surface is set. -/
structure GMState where
  graphics : List (Option ℤ × List GMGraphic)
  layers : List (Option ℤ)
  overlay : Option ℕ
  gmDirty : List PRect
  surfacePresent : Bool
  deriving DecidableEq, Repr

/-- `GraphicsManager.dirty(rect)`: appends, unless no surface is set
(then it returns immediately). -/
def gmDirtyAdd (s : GMState) (r : PRect) : GMState :=
  if s.surfacePresent then { s with gmDirty := s.gmDirty ++ [r] } else s

/-- `GraphicsManager.add` for a single `Graphic` argument: a `None` layer
is rejected (`ValueError`) unless the graphic is the overlay; otherwise
the graphic joins its layer's set (`was_visible` reset to `False`) and
`layers` is re-sorted.  The lookup falling back to an append when the
layer is listed but absent from the dict is unreachable: `layers` always
mirrors the keys of `graphics`. -/
def addG (s : GMState) (g : GMGraphic) : Except PyErr GMState :=
  if g.layer = none ∧ s.overlay ≠ some g.gid then .error .valueError
  else
    let l := g.layer
    let g2 := { g with wasVisible := false }
    let graphics2 :=
      if l ∈ s.layers then
        s.graphics.map (fun e =>
          if e.1 = l then (l, (e.2.filter (fun x => x.gid ≠ g.gid)) ++ [g2])
          else e)
      else s.graphics ++ [(l, [g2])]
    let ls2 := if l ∈ s.layers then s.layers else s.layers ++ [l]
    .ok { s with graphics := graphics2, layers := sortLayers ls2 }

/-- `GraphicsManager.rm` for a single `Graphic` argument: a graphic that
is not a member (its layer unknown, or not in its layer's set) leaves the
members untouched; a member is removed, its old footprint is marked dirty
when it was visible at the last draw, and an emptied layer is dropped.
The `lookup` returning `none` for a listed layer is unreachable (`layers`
always mirrors the keys of `graphics`; Python would raise `KeyError`). -/
def rmG (s : GMState) (g : GMGraphic) : GMState :=
  let l := g.layer
  if l ∈ s.layers then
    match s.graphics.lookup l with
    | none => { s with layers := sortLayers s.layers }
    | some gs =>
        if g.gid ∈ gs.map GMGraphic.gid then
          let gs2 := gs.filter (fun x => x.gid ≠ g.gid)
          let s2 := if g.wasVisible then gmDirtyAdd s g.lastRect else s
          if gs2.isEmpty then
            { s2 with
              graphics := s2.graphics.filter (fun e => e.1 ≠ l),
              layers := sortLayers (s.layers.filter (fun x => x ≠ l)) }
          else
            { s2 with
              graphics := s2.graphics.map (fun e => if e.1 = l then (l, gs2) else e),
              layers := sortLayers s.layers }
        else { s with layers := sortLayers s.layers }
  else { s with layers := sortLayers s.layers }

/-- `draw()`'s return contract. -/
inductive DrawResult
  | whole
  | rects (rs : List PRect)
  | nothing
  deriving DecidableEq, Repr

/-- All member graphics. -/
def gmAllGraphics (s : GMState) : List GMGraphic :=
  s.graphics.flatMap (fun e => e.2)

/-- The per-graphic dirty contributions: for every visible graphic whose
rectangle moved since the last draw, and for every graphic whose
visibility changed, both its old and its new rectangle. -/
def graphicDirtyRects (s : GMState) : List PRect :=
  (gmAllGraphics s).flatMap (fun g =>
    if (g.visible && decide (g.rect ≠ g.lastRect)) || (g.visible != g.wasVisible)
    then [g.lastRect, g.rect] else [])

/-- The rectangles a `draw()` call starts from: the accumulated
`_gm_dirty` list plus the per-graphic contributions. -/
def dirtyRectsOf (s : GMState) : List PRect :=
  s.gmDirty ++ graphicDirtyRects s

/-- Modelled from the spec: `fastdraw` lives in the `_gm` module, which
is not among the source files (`gm.py` only imports it).  Per the spec's
`draw()` algorithm: starting from the handed-over dirty list plus, for
every visible graphic whose rectangle differs from its `last_rect` or
whose visibility changed, both its old and new rectangle, redraw those
regions; drawn graphics record `last_rect` and every graphic's
`was_visible` becomes its current visibility.  Returns a falsy result
when nothing changed, `True` above the whole-surface heuristic threshold
of 60 rectangles, and the non-empty rectangle list otherwise. -/
def fastdraw (s : GMState) (dirty : List PRect) : DrawResult × GMState :=
  let rs := dirty ++ graphicDirtyRects s
  let s2 := { s with
    graphics := s.graphics.map (fun e => (e.1, e.2.map (fun g =>
      { g with wasVisible := g.visible,
               lastRect := if g.visible then g.rect else g.lastRect }))) }
  (if rs.isEmpty then .nothing
   else if 60 < rs.length then .whole
   else .rects rs, s2)

/-- `GraphicsManager.draw()`: `False` when there are no layers or no
surface; otherwise hand the accumulated dirty list (resetting it) to
`fastdraw`. -/
def gmDraw (s : GMState) : DrawResult × GMState :=
  if s.layers.isEmpty || !s.surfacePresent then (.nothing, s)
  else fastdraw { s with gmDirty := [] } s.gmDirty

/-- Falsy draw results (`False` is falsy; a non-empty rect list and
`True` are truthy — `fastdraw` never returns an empty list). -/
def DrawResult.falsy : DrawResult → Bool
  | .nothing => true
  | _ => false

/-- A concrete one-layer manager state, used by witnesses. -/
def gmEx : GMState :=
  { graphics := [(some 1, [⟨3, some 1, ⟨0, 0, 2, 2⟩, ⟨0, 0, 2, 2⟩, true, true⟩])],
    layers := [some 1], overlay := none, gmDirty := [], surfacePresent := true }

/-! ## Scheduler lemmas and claims C2, C3, C4 -/

theorem updateLoop_cons (f : ℚ) (i : ℕ) (t : Timeout) (rest : List (ℕ × Timeout)) :
    updateLoop f ((i, t) :: rest) =
      match stepTimeout f t with
      | .error e => .error e
      | .ok (t2, fired) =>
          match updateLoop f rest with
          | .error e => .error e
          | .ok (rest2, inv2) =>
              .ok ((match t2 with
                    | some u => [(i, u)]
                    | none => []) ++ rest2,
                   (if fired then [(i, t.cb, t.args)] else []) ++ inv2) := by
  cases h1 : stepTimeout f t with
  | error e => simp [updateLoop, h1, Bind.bind, Except.bind]
  | ok r =>
      cases h2 : updateLoop f rest with
      | error e => simp [updateLoop, h1, h2, Bind.bind, Except.bind]
      | ok r2 => simp [updateLoop, h1, h2, Bind.bind, Except.bind]

theorem updateLoop_keys (f : ℚ) :
    ∀ {l l2 : List (ℕ × Timeout)} {inv : List (ℕ × ℕ × List ℤ)},
      updateLoop f l = .ok (l2, inv) →
      (∀ e ∈ l2, e.1 ∈ l.map Prod.fst) ∧ (∀ v ∈ inv, v.1 ∈ l.map Prod.fst) := by
  intro l
  induction l with
  | nil =>
      intro l2 inv h
      simp [updateLoop] at h
      simp [h.1, h.2]
  | cons e rest ih =>
      intro l2 inv h
      obtain ⟨i, t⟩ := e
      rw [updateLoop_cons] at h
      cases h1 : stepTimeout f t with
      | error e2 => rw [h1] at h; cases h
      | ok r =>
          rw [h1] at h
          cases h2 : updateLoop f rest with
          | error e2 => rw [h2] at h; cases h
          | ok r2 =>
              rw [h2] at h
              obtain ⟨t2, fired⟩ := r
              obtain ⟨rest2, inv2⟩ := r2
              simp only [Except.ok.injEq, Prod.mk.injEq] at h
              obtain ⟨hl2, hinv⟩ := h
              have ihr := ih h2
              constructor
              · intro e2 he2
                rw [← hl2] at he2
                rcases List.mem_append.mp he2 with hk | hr
                · cases t2 with
                  | some u => simp at hk; simp [hk]
                  | none => simp at hk
                · have := ihr.1 e2 hr
                  simp only [List.map_cons]
                  exact List.mem_cons_of_mem _ this
              · intro v hv
                rw [← hinv] at hv
                rcases List.mem_append.mp hv with hk | hr
                · by_cases hf : fired = true
                  · simp [hf] at hk; simp [hk]
                  · simp at hf; simp [hf] at hk
                · have := ihr.2 v hr
                  simp only [List.map_cons]
                  exact List.mem_cons_of_mem _ this

theorem stepTimeout_ok_of_unitOK (f : ℚ) {t : Timeout} (hu : unitOK t) :
    ∃ r, stepTimeout f t = .ok r := by
  obtain ⟨sec?, fra?, rsec?, rfra?, cb, args, ret⟩ := t
  cases sec? with
  | some sec =>
      cases rsec? with
      | some rs =>
          simp only [stepTimeout]
          split
          · cases ret
            · exact ⟨_, rfl⟩
            · exact ⟨_, rfl⟩
          · exact ⟨_, rfl⟩
      | none => simp [unitOK] at hu
  | none =>
      simp only [unitOK] at hu
      obtain ⟨hf, hrs, hrf⟩ := hu
      subst hrs
      cases fra? with
      | none => simp at hf
      | some fr =>
          cases rfra? with
          | none => simp at hrf
          | some rf =>
              simp only [stepTimeout]
              split
              · cases ret
                · exact ⟨_, rfl⟩
                · exact ⟨_, rfl⟩
              · exact ⟨_, rfl⟩

theorem updateLoop_ok_of_unitOK (f : ℚ) :
    ∀ {l : List (ℕ × Timeout)}, (∀ e ∈ l, unitOK e.2) →
      ∃ l2 inv, updateLoop f l = .ok (l2, inv) := by
  intro l
  induction l with
  | nil => intro _; exact ⟨[], [], rfl⟩
  | cons e rest ih =>
      intro hall
      obtain ⟨i, t⟩ := e
      have hu : unitOK t := hall (i, t) (by simp)
      obtain ⟨r, hr⟩ := stepTimeout_ok_of_unitOK f hu
      obtain ⟨rest2, inv2, h2⟩ := ih (fun e2 he2 => hall e2 (List.mem_cons_of_mem _ he2))
      obtain ⟨t2, fired⟩ := r
      cases t2 with
      | some u =>
          refine ⟨[(i, u)] ++ rest2,
                  (if fired then [(i, t.cb, t.args)] else []) ++ inv2, ?_⟩
          rw [updateLoop_cons, hr, h2]
      | none =>
          refine ⟨[] ++ rest2,
                  (if fired then [(i, t.cb, t.args)] else []) ++ inv2, ?_⟩
          rw [updateLoop_cons, hr, h2]

/-- Per-entry characterization of the `_update` loop: the entry with key
`i` is stepped exactly once; what happens to it and whether its callback
fires is given by `stepTimeout`. -/
theorem updateLoop_mem (f : ℚ) :
    ∀ {l l2 : List (ℕ × Timeout)} {inv : List (ℕ × ℕ × List ℤ)} {i : ℕ} {t : Timeout},
      updateLoop f l = .ok (l2, inv) → (i, t) ∈ l → (l.map Prod.fst).Nodup →
      ∃ r, stepTimeout f t = .ok r ∧
        (∀ u, r.1 = some u → (i, u) ∈ l2) ∧
        (r.1 = none → i ∉ l2.map Prod.fst) ∧
        (r.2 = true → (i, t.cb, t.args) ∈ inv) ∧
        (r.2 = false → ∀ v ∈ inv, v.1 ≠ i) := by
  intro l
  induction l with
  | nil => intro l2 inv i t _ hmem; cases hmem
  | cons e rest ih =>
      intro l2 inv i t h hmem hnd
      obtain ⟨j, u⟩ := e
      rw [updateLoop_cons] at h
      cases h1 : stepTimeout f u with
      | error e2 => rw [h1] at h; cases h
      | ok r =>
          rw [h1] at h
          cases h2 : updateLoop f rest with
          | error e2 => rw [h2] at h; cases h
          | ok r2 =>
              rw [h2] at h
              obtain ⟨t2, fired⟩ := r
              obtain ⟨rest2, inv2⟩ := r2
              simp only [Except.ok.injEq, Prod.mk.injEq] at h
              obtain ⟨hl2, hinv⟩ := h
              simp only [List.map_cons, List.nodup_cons] at hnd
              obtain ⟨hj, hnd2⟩ := hnd
              have hkeys := updateLoop_keys f h2
              rcases List.mem_cons.mp hmem with hhead | htail
              · -- (i, t) is the head entry
                have hi : i = j := congrArg Prod.fst hhead
                have ht : t = u := congrArg Prod.snd hhead
                subst hi
                subst ht
                refine ⟨(t2, fired), h1, ?_, ?_, ?_, ?_⟩
                · intro u2 hu2
                  simp only at hu2
                  rw [← hl2, hu2]
                  simp
                · intro hn
                  simp only at hn
                  rw [← hl2, hn]
                  simp only [List.nil_append]
                  intro hcontra
                  rcases List.mem_map.mp hcontra with ⟨e3, he3, he3k⟩
                  exact hj (he3k ▸ hkeys.1 e3 he3)
                · intro hf
                  simp only at hf
                  rw [← hinv, hf]
                  simp
                · intro hf v hv
                  simp only at hf
                  rw [← hinv, hf] at hv
                  simp only [Bool.false_eq_true, if_false, List.nil_append] at hv
                  intro hvi
                  exact hj (hvi ▸ hkeys.2 v hv)
              · -- (i, t) is in the tail
                have hij : j ≠ i := by
                  intro hji
                  exact hj (hji ▸ List.mem_map.mpr ⟨(i, t), htail, rfl⟩)
                obtain ⟨r, hr, hm1, hm2, hm3, hm4⟩ := ih h2 htail hnd2
                refine ⟨r, hr, ?_, ?_, ?_, ?_⟩
                · intro u2 hu2
                  rw [← hl2]
                  exact List.mem_append.mpr (Or.inr (hm1 u2 hu2))
                · intro hn hcontra
                  rw [← hl2] at hcontra
                  rcases List.mem_map.mp hcontra with ⟨e3, he3, he3k⟩
                  rcases List.mem_append.mp he3 with hk | hr2
                  · cases t2 with
                    | some u3 => simp at hk; rw [hk] at he3k; exact hij he3k
                    | none => simp at hk
                  · exact hm2 hn (he3k ▸ List.mem_map.mpr ⟨e3, hr2, rfl⟩)
                · intro hf
                  rw [← hinv]
                  exact List.mem_append.mpr (Or.inr (hm3 hf))
                · intro hf v hv
                  rw [← hinv] at hv
                  rcases List.mem_append.mp hv with hk | hr2
                  · by_cases hfd : fired = true
                    · simp [hfd] at hk
                      intro hvi
                      exact hij (by rw [← hvi, hk])
                    · simp at hfd; simp [hfd] at hk
                  · exact hm4 hf v hr2

theorem schedUpdate_inv {s : SchedState} {s2 : SchedState}
    {inv : List (ℕ × ℕ × List ℤ)} (h : schedUpdate s = .ok (s2, inv)) :
    updateLoop s.frame s.cbs = .ok (s2.cbs, inv) ∧ s2.maxId = s.maxId := by
  unfold schedUpdate at h
  cases hl : updateLoop s.frame s.cbs with
  | error e => rw [hl] at h; simp [Bind.bind, Except.bind] at h
  | ok r =>
      rw [hl] at h
      obtain ⟨l2, inv2⟩ := r
      simp only [Bind.bind, Except.bind, Except.ok.injEq, Prod.mk.injEq] at h
      obtain ⟨hs2, hinv⟩ := h
      rw [← hs2, ← hinv]
      exact ⟨rfl, rfl⟩

theorem schedUpdate_ok_of_unitOK {s : SchedState}
    (hall : ∀ e ∈ s.cbs, unitOK e.2) :
    ∃ s2 inv, schedUpdate s = .ok (s2, inv) := by
  obtain ⟨l2, inv, hloop⟩ := updateLoop_ok_of_unitOK s.frame hall
  refine ⟨{ s with cbs := l2 }, inv, ?_⟩
  unfold schedUpdate
  rw [hloop]
  rfl

theorem runOps_cons (s : SchedState) (op : SchedOp) (rest : List SchedOp) :
    runOps s (op :: rest) =
      ((runOps (applyOp s op).1 rest).1,
       (applyOp s op).2 ++ (runOps (applyOp s op).1 rest).2) := by
  rcases hap : applyOp s op with ⟨s2, ids⟩
  rcases hr : runOps s2 rest with ⟨s3, ids2⟩
  simp [runOps, hap, hr]

theorem applyOp_maxId_le (s : SchedState) (op : SchedOp) :
    s.maxId ≤ (applyOp s op).1.maxId := by
  cases op with
  | addT cb args ret sec fra rsec rfra =>
      simp [applyOp, addTimeout]
  | rmT ids => simp [applyOp, rmTimeout]
  | updT =>
      simp only [applyOp]
      cases h : schedUpdate s with
      | error e => simp
      | ok p =>
          obtain ⟨s2, inv⟩ := p
          have := (schedUpdate_inv h).2
          simp [this]

theorem applyOp_addT_spec (s : SchedState) (cb : ℕ) (args : List ℤ)
    (ret : Bool) (sec fra rsec rfra : Option ℚ) :
    (applyOp s (.addT cb args ret sec fra rsec rfra)).2 = [s.maxId] ∧
    (applyOp s (.addT cb args ret sec fra rsec rfra)).1.maxId = s.maxId + 1 := by
  simp [applyOp, addTimeout]

theorem applyOp_ids_empty (s : SchedState) (op : SchedOp)
    (h : ∀ cb args ret sec fra rsec rfra,
      op ≠ .addT cb args ret sec fra rsec rfra) :
    (applyOp s op).2 = [] := by
  cases op with
  | addT cb args ret sec fra rsec rfra => exact absurd rfl (h cb args ret sec fra rsec rfra)
  | rmT ids => rfl
  | updT => simp only [applyOp]; cases h2 : schedUpdate s <;> rfl

theorem runOps_ids_ge :
    ∀ (ops : List SchedOp) (s : SchedState), ∀ j ∈ (runOps s ops).2, s.maxId ≤ j := by
  intro ops
  induction ops with
  | nil => intro s j hj; simp [runOps] at hj
  | cons op rest ih =>
      intro s j hj
      rw [runOps_cons] at hj
      rcases List.mem_append.mp hj with h1 | h2
      · cases op with
        | addT cb args ret sec fra rsec rfra =>
            have := (applyOp_addT_spec s cb args ret sec fra rsec rfra).1
            rw [this] at h1
            simp at h1
            simp [applyOp, addTimeout] at h1 ⊢
            omega
        | rmT ids => simp [applyOp] at h1
        | updT =>
            rw [applyOp_ids_empty s .updT (by intro cb args ret sec fra rsec rfra h; cases h)] at h1
            cases h1
      · exact le_trans (applyOp_maxId_le s op) (ih (applyOp s op).1 j h2)

theorem runOps_pairwise :
    ∀ (ops : List SchedOp) (s : SchedState),
      List.Pairwise (· < ·) (runOps s ops).2 := by
  intro ops
  induction ops with
  | nil => intro s; simp [runOps]
  | cons op rest ih =>
      intro s
      rw [runOps_cons]
      apply List.pairwise_append.mpr
      refine ⟨?_, ih _, ?_⟩
      · cases op with
        | addT cb args ret sec fra rsec rfra =>
            rw [(applyOp_addT_spec s cb args ret sec fra rsec rfra).1]
            simp
        | rmT ids => simp [applyOp]
        | updT =>
            rw [applyOp_ids_empty s .updT (by intro cb args ret sec fra rsec rfra h; cases h)]
            simp
      · intro a ha b hb
        cases op with
        | addT cb args ret sec fra rsec rfra =>
            obtain ⟨hids, hmax⟩ := applyOp_addT_spec s cb args ret sec fra rsec rfra
            rw [hids] at ha
            simp at ha
            have hbge := runOps_ids_ge rest _ b hb
            rw [hmax] at hbge
            omega
        | rmT ids => simp [applyOp] at ha
        | updT =>
            rw [applyOp_ids_empty s .updT (by intro cb args ret sec fra rsec rfra h; cases h)] at ha
            cases ha

/-- C2 (amended): on a per-frame `_update`, every registered timeout has
its remaining delay decremented by one frame-equivalent unit (`1` when
frame-counted, the frame length in seconds when time-counted); when the
remaining delay reaches zero or below the callback is invoked with its
stored arguments; a truthy return resets the remaining delay to the
repeat interval plus the non-positive excess, and a falsy return
deregisters the timeout — provided every timeout's repeat interval is
expressed in the same unit as its remaining delay (`unitOK`); with mixed
units `_update` raises `TypeError` instead (see the counterexample). -/
theorem C2_per_frame_update (s : SchedState) (i : ℕ) (t : Timeout)
    (hmem : (i, t) ∈ s.cbs)
    (hnd : (s.cbs.map Prod.fst).Nodup)
    (hall : ∀ e ∈ s.cbs, unitOK e.2) :
    ∃ s2 inv, schedUpdate s = .ok (s2, inv) ∧
      (∀ sec, t.seconds = some sec →
        (((i, t.cb, t.args) ∈ inv) ↔ sec - s.frame ≤ 0) ∧
        (0 < sec - s.frame →
          (i, { t with seconds := some (sec - s.frame) }) ∈ s2.cbs) ∧
        (sec - s.frame ≤ 0 → t.ret = true → ∀ rs, t.repeatSeconds = some rs →
          (i, { t with seconds := some (sec - s.frame + rs), frames := none })
            ∈ s2.cbs) ∧
        (sec - s.frame ≤ 0 → t.ret = false → i ∉ s2.cbs.map Prod.fst)) ∧
      (t.seconds = none → ∀ fr, t.frames = some fr →
        (((i, t.cb, t.args) ∈ inv) ↔ fr - 1 ≤ 0) ∧
        (0 < fr - 1 → (i, { t with frames := some (fr - 1) }) ∈ s2.cbs) ∧
        (fr - 1 ≤ 0 → t.ret = true → ∀ rf, t.repeatFrames = some rf →
          (i, { t with frames := some (fr - 1 + rf) }) ∈ s2.cbs) ∧
        (fr - 1 ≤ 0 → t.ret = false → i ∉ s2.cbs.map Prod.fst)) := by
  obtain ⟨l2, inv, hloop⟩ := updateLoop_ok_of_unitOK s.frame hall
  have hupd : schedUpdate s = .ok ({ s with cbs := l2 }, inv) := by
    unfold schedUpdate
    rw [hloop]
    rfl
  obtain ⟨r, hr, hm1, hm2, hm3, hm4⟩ := updateLoop_mem s.frame hloop hmem hnd
  refine ⟨{ s with cbs := l2 }, inv, hupd, ?_, ?_⟩
  · intro sec hs
    have hu : unitOK t := hall (i, t) hmem
    unfold unitOK at hu
    rw [hs] at hu
    simp only at hu
    by_cases hd : sec - s.frame ≤ 0
    · cases hret : t.ret with
      | true =>
          obtain ⟨rsv, hrsv⟩ := Option.isSome_iff_exists.mp hu
          have hstep : stepTimeout s.frame t =
              .ok (some { t with
                          seconds := some (sec - s.frame + rsv),
                          frames := none }, true) := by
            simp [stepTimeout, hs, hd, hret, hrsv]
          rw [hstep] at hr
          have hrv : r = (some { t with
                          seconds := some (sec - s.frame + rsv),
                          frames := none }, true) := (Except.ok.inj hr).symm
          subst hrv
          refine ⟨iff_of_true (hm3 rfl) hd, ?_, ?_, ?_⟩
          · intro hc
            exact absurd hd (by linarith)
          · intro _ _ rs2 hrs2
            rw [hrsv] at hrs2
            obtain rfl : rsv = rs2 := Option.some.inj hrs2
            exact hm1 _ (by simp [hret])
          · intro _ hc
            cases hc
      | false =>
          have hstep : stepTimeout s.frame t = .ok (none, true) := by
            simp [stepTimeout, hs, hd, hret]
          rw [hstep] at hr
          have hrv : r = (none, true) := (Except.ok.inj hr).symm
          subst hrv
          refine ⟨iff_of_true (hm3 rfl) hd, ?_, ?_, ?_⟩
          · intro hc
            exact absurd hd (by linarith)
          · intro _ hc
            cases hc
          · intro _ _
            exact hm2 rfl
    · have hstep : stepTimeout s.frame t =
          .ok (some { t with seconds := some (sec - s.frame) }, false) := by
        simp [stepTimeout, hs, hd]
      rw [hstep] at hr
      have hrv : r = (some { t with seconds := some (sec - s.frame) }, false) :=
        (Except.ok.inj hr).symm
      subst hrv
      refine ⟨?_, ?_, ?_, ?_⟩
      · refine iff_of_false ?_ hd
        intro hc
        exact hm4 rfl _ hc rfl
      · intro _
        exact hm1 _ rfl
      · intro hc
        exact absurd hc hd
      · intro hc
        exact absurd hc hd
  · intro hs fr hf
    have hu : unitOK t := hall (i, t) hmem
    unfold unitOK at hu
    rw [hs] at hu
    simp only at hu
    obtain ⟨hfs, hrs0, hrf⟩ := hu
    by_cases hd : fr - 1 ≤ 0
    · cases hret : t.ret with
      | true =>
          obtain ⟨rfv, hrfv⟩ := Option.isSome_iff_exists.mp hrf
          have hstep : stepTimeout s.frame t =
              .ok (some { t with frames := some (fr - 1 + rfv) }, true) := by
            simp [stepTimeout, hs, hf, hd, hret, hrs0, hrfv]
          rw [hstep] at hr
          have hrv : r = (some { t with frames := some (fr - 1 + rfv) }, true) :=
            (Except.ok.inj hr).symm
          subst hrv
          refine ⟨iff_of_true (hm3 rfl) hd, ?_, ?_, ?_⟩
          · intro hc
            exact absurd hd (by linarith)
          · intro _ _ rf2 hrf2
            rw [hrfv] at hrf2
            obtain rfl : rfv = rf2 := Option.some.inj hrf2
            exact hm1 _ (by simp [hret])
          · intro _ hc
            cases hc
      | false =>
          have hstep : stepTimeout s.frame t = .ok (none, true) := by
            simp [stepTimeout, hs, hf, hd, hret]
          rw [hstep] at hr
          have hrv : r = (none, true) := (Except.ok.inj hr).symm
          subst hrv
          refine ⟨iff_of_true (hm3 rfl) hd, ?_, ?_, ?_⟩
          · intro hc
            exact absurd hd (by linarith)
          · intro _ hc
            cases hc
          · intro _ _
            exact hm2 rfl
    · have hstep : stepTimeout s.frame t =
          .ok (some { t with frames := some (fr - 1) }, false) := by
        simp [stepTimeout, hs, hf, hd]
      rw [hstep] at hr
      have hrv : r = (some { t with frames := some (fr - 1) }, false) :=
        (Except.ok.inj hr).symm
      subst hrv
      refine ⟨?_, ?_, ?_, ?_⟩
      · refine iff_of_false ?_ hd
        intro hc
        exact hm4 rfl _ hc rfl
      · intro _
        exact hm1 _ rfl
      · intro hc
        exact absurd hc hd
      · intro hc
        exact absurd hc hd

/-- C2 counterexample: register a frame-counted timeout whose repeat
interval is given in seconds (`add_timeout(cb, frames = 1,
repeat_seconds = 1)`), with a callback returning a truthy value.  The
claim says the remaining delay is then reset to the repeat interval plus
the excess; the code instead evaluates `data[0] += data[2]` with
`data[0] = None` and raises `TypeError`. -/
theorem C2_counterexample :
    schedUpdate (addTimeout (schedInit 60) 0 [] true
      none (some 1) (some 1) none).2 = .error .typeError := by
  norm_num [schedUpdate, addTimeout, schedInit, updateLoop, stepTimeout,
            Bind.bind, Except.bind]

/-- C2 witness: a seconds-counted repeating timeout at frame length
`1/2` with remaining delay `1/4` fires and is rescheduled at
`1/4 - 1/2 + 1 = 3/4` seconds. -/
theorem C2_witness :
    ∃ s2 inv,
      schedUpdate { cbs := [(0, { seconds := some (1/4), frames := none,
                                  repeatSeconds := some 1, repeatFrames := none,
                                  cb := 7, args := [3], ret := true })],
                    maxId := 1, frame := 1/2, fpsI := 2 } = .ok (s2, inv) ∧
      (0, 7, [3]) ∈ inv ∧
      (0, ({ seconds := some (1/4 - 1/2 + 1), frames := none,
             repeatSeconds := some 1, repeatFrames := none,
             cb := 7, args := [3], ret := true } : Timeout)) ∈ s2.cbs := by
  obtain ⟨s2, inv, h1, h2, _⟩ :=
    C2_per_frame_update
      { cbs := [(0, { seconds := some (1/4), frames := none,
                      repeatSeconds := some 1, repeatFrames := none,
                      cb := 7, args := [3], ret := true })],
        maxId := 1, frame := 1/2, fpsI := 2 }
      0
      { seconds := some (1/4), frames := none,
        repeatSeconds := some 1, repeatFrames := none,
        cb := 7, args := [3], ret := true }
      (by simp)
      (by simp)
      (by intro e he; simp at he; rw [he]; decide)
  obtain ⟨hiff, _, hrep, _⟩ := h2 (1/4) rfl
  refine ⟨s2, inv, h1, hiff.mpr (by norm_num), ?_⟩
  exact hrep (by norm_num) rfl 1 rfl

/-- C3: over any session of `add_timeout`, `rm_timeout` and `_update`
calls against one scheduler, the identifiers returned by the
`add_timeout` calls are pairwise strictly increasing in call order —
each is strictly greater than every earlier one, and no identifier is
ever reused after its timeout is removed or auto-removed (`_max_id` only
ever grows). -/
theorem C3_add_timeout_ids_monotonic (fps : ℚ) (ops : List SchedOp) :
    List.Pairwise (· < ·) (runOps (schedInit fps) ops).2 :=
  runOps_pairwise ops (schedInit fps)

/-- C3 witness: an add, a removal, an update and two more adds hand out
the identifiers 0, 1, 2 in strictly increasing order. -/
theorem C3_witness :
    List.Pairwise (· < ·)
      (runOps (schedInit 60)
        [SchedOp.addT 0 [] false none (some 1) none none,
         SchedOp.rmT [0],
         SchedOp.updT,
         SchedOp.addT 1 [] true (some 1) none none none,
         SchedOp.addT 2 [5] false none (some 2) none (some 3)]).2 :=
  C3_add_timeout_ids_monotonic 60
    [SchedOp.addT 0 [] false none (some 1) none none,
     SchedOp.rmT [0],
     SchedOp.updT,
     SchedOp.addT 1 [] true (some 1) none none none,
     SchedOp.addT 2 [5] false none (some 2) none (some 3)]

/-- C4: `rm_timeout` with an identifier that is not registered (never
issued, already cancelled, or auto-removed) raises no error (the model is
total because the source catches `KeyError`) and leaves the scheduler
unchanged, and the callback behind that identifier is never invoked on a
later `_update` nor re-registered by it; cancelling the same identifier
twice always has the same effect as cancelling it once. -/
theorem C4_rm_timeout_missing_id (s : SchedState) (i : ℕ) :
    (i ∉ s.cbs.map Prod.fst →
      rmTimeout s [i] = s ∧
      (∀ s2 inv, schedUpdate s = .ok (s2, inv) →
        (∀ v ∈ inv, v.1 ≠ i) ∧ i ∉ s2.cbs.map Prod.fst)) ∧
    rmTimeout (rmTimeout s [i]) [i] = rmTimeout s [i] := by
  constructor
  · intro h
    constructor
    · have hf : s.cbs.filter (fun e => decide (e.1 ∉ [i])) = s.cbs := by
        apply List.filter_eq_self.mpr
        intro e he
        simp only [List.mem_singleton, decide_eq_true_eq]
        intro hei
        exact h (hei ▸ List.mem_map.mpr ⟨e, he, rfl⟩)
      unfold rmTimeout
      rw [hf]
    · intro s2 inv hupd
      have hinv := schedUpdate_inv hupd
      have hkeys := updateLoop_keys s.frame hinv.1
      constructor
      · intro v hv hvi
        exact h (hvi ▸ hkeys.2 v hv)
      · intro hc
        rcases List.mem_map.mp hc with ⟨e, he, hek⟩
        exact h (hek ▸ hkeys.1 e he)
  · unfold rmTimeout
    simp [List.filter_filter]

/-- C4 witness: cancelling the unknown id 5 on a scheduler holding only
id 0 changes nothing, twice-cancelling is once-cancelling, and the next
update neither invokes nor resurrects id 5. -/
theorem C4_witness :
    (rmTimeout { cbs := [(0, { seconds := none, frames := some 2,
                               repeatSeconds := none, repeatFrames := some 2,
                               cb := 1, args := [], ret := false })],
                 maxId := 1, frame := 1/60, fpsI := 60 } [5] =
      { cbs := [(0, { seconds := none, frames := some 2,
                      repeatSeconds := none, repeatFrames := some 2,
                      cb := 1, args := [], ret := false })],
        maxId := 1, frame := 1/60, fpsI := 60 }) ∧
    (∀ s2 inv,
      schedUpdate { cbs := [(0, { seconds := none, frames := some 2,
                                  repeatSeconds := none, repeatFrames := some 2,
                                  cb := 1, args := [], ret := false })],
                    maxId := 1, frame := 1/60, fpsI := 60 } = .ok (s2, inv) →
      (∀ v ∈ inv, v.1 ≠ 5) ∧ 5 ∉ s2.cbs.map Prod.fst) :=
  (C4_rm_timeout_missing_id
    { cbs := [(0, { seconds := none, frames := some 2,
                    repeatSeconds := none, repeatFrames := some 2,
                    cb := 1, args := [], ret := false })],
      maxId := 1, frame := 1/60, fpsI := 60 } 5).1 (by decide)

/-! ## Claims C9 and C5 -/

/-- A concrete leaf function for evaluations: the sum of the numeric
readings of the arguments. -/
def addNums (l : List PyVal) : PyVal :=
  .num ((l.map PyVal.asNum).sum)

/-- C9 counterexample: `call_in_nest(f, [1, 2, 3], [10, 20])` with
list-valued arguments of different lengths silently produces the
truncated result `[f(1, 10), f(2, 20)]` (here `f` adds its arguments) —
it does not fail fast, and the result does not have the shape of the
longer list argument. -/
theorem C9_counterexample :
    callInNest addNums
      [PyVal.list [.num 1, .num 2, .num 3], PyVal.list [.num 10, .num 20]] =
      PyVal.list [.num 11, .num 22] := by
  rw [callInNest_pair]
  have h1 : callInNest addNums [PyVal.num 1, PyVal.num 10] = .num 11 := by
    rw [callInNest_of_no_list _ _ (by decide)]
    simp [addNums, PyVal.asNum]
    norm_num
  have h2 : callInNest addNums [PyVal.num 2, PyVal.num 20] = .num 22 := by
    rw [callInNest_of_no_list _ _ (by decide)]
    simp [addNums, PyVal.asNum]
    norm_num
  norm_num [List.range_succ]
  exact ⟨h1, h2⟩

/-- C9 (amended): `call_in_nest` applies `f` to the leaves when no
argument is a list; at a level where some argument is a list it recurses
element-wise, broadcasting non-list arguments against list arguments and
— this is the amendment — silently truncating to the shortest list
argument when list lengths disagree, instead of failing. -/
theorem C9_call_in_nest :
    (∀ (f : List PyVal → PyVal) (args : List PyVal),
      args.any isListB = false → callInNest f args = f args) ∧
    (∀ (f : List PyVal → PyVal) (xs ys : List PyVal), xs.length = ys.length →
      callInNest f [PyVal.list xs, PyVal.list ys] =
        PyVal.list (List.zipWith (fun x y => callInNest f [x, y]) xs ys)) ∧
    (∀ (f : List PyVal → PyVal) (a : PyVal) (ys : List PyVal),
      isListB a = false →
      callInNest f [a, PyVal.list ys] =
        PyVal.list (ys.map fun y => callInNest f [a, y])) ∧
    (∀ (f : List PyVal → PyVal) (xs ys : List PyVal),
      callInNest f [PyVal.list xs, PyVal.list ys] =
        PyVal.list ((List.range (min xs.length ys.length)).map fun k =>
          callInNest f [xs.getD k PyVal.noneV, ys.getD k PyVal.noneV])) :=
  ⟨callInNest_of_no_list, callInNest_pair_eqlen, callInNest_broadcast,
   callInNest_pair⟩

/-- C9 witness: the lockstep equation at a concrete equal-length input. -/
theorem C9_witness :
    callInNest addNums [PyVal.list [.num 1], PyVal.list [.num 2]] =
      PyVal.list (List.zipWith (fun x y => callInNest addNums [x, y])
        [PyVal.num 1] [PyVal.num 2]) :=
  C9_call_in_nest.2.1 addNums [PyVal.num 1] [PyVal.num 2] rfl

theorem cmpStructureL_length :
    ∀ {xs ys : List PyVal}, cmpStructureL xs ys = true → xs.length = ys.length := by
  intro xs
  induction xs with
  | nil =>
      intro ys h
      cases ys with
      | nil => rfl
      | cons y ys => simp [cmpStructureL] at h
  | cons x xs ih =>
      intro ys h
      cases ys with
      | nil => simp [cmpStructureL] at h
      | cons y ys =>
          simp only [cmpStructureL, Bool.and_eq_true] at h
          simp [ih h.2]

theorem sizeOfPos (v : PyVal) : 0 < sizeOf v := by
  cases v <;> simp <;> omega

theorem zipWith_lastVal_aux (n : ℕ)
    (ih : ∀ v w, sizeOf v ≤ n → allNum v = true → cmpStructure v w = true →
      callInNest lastVal [v, w] = v) :
    ∀ xs ys, (∀ x ∈ xs, sizeOf x ≤ n) → allNumL xs = true →
      cmpStructureL xs ys = true →
      List.zipWith (fun x y => callInNest lastVal [x, y]) xs ys = xs := by
  intro xs
  induction xs with
  | nil => intro ys _ _ _; simp
  | cons x xs ih2 =>
      intro ys hsz hnl hcl
      cases ys with
      | nil => simp [cmpStructureL] at hcl
      | cons y ys =>
          simp only [cmpStructureL, Bool.and_eq_true] at hcl
          simp only [allNumL, Bool.and_eq_true] at hnl
          simp only [List.zipWith_cons_cons]
          rw [ih x y (hsz x (by simp)) hnl.1 hcl.1,
              ih2 ys (fun z hz => hsz z (by simp [hz])) hnl.2 hcl.2]

theorem lastVal_allNum_fuel :
    ∀ (n : ℕ) (v w : PyVal), sizeOf v ≤ n → allNum v = true →
      cmpStructure v w = true → callInNest lastVal [v, w] = v := by
  intro n
  induction n with
  | zero =>
      intro v w h
      exact absurd h (by have := sizeOfPos v; omega)
  | succ n ih =>
      intro v w hs hn hc
      cases v with
      | num q =>
          cases w with
          | list l => simp [cmpStructure] at hc
          | num b =>
              rw [callInNest_of_no_list _ _ (by rfl)]
              rfl
          | strV s =>
              rw [callInNest_of_no_list _ _ (by rfl)]
              rfl
          | noneV =>
              rw [callInNest_of_no_list _ _ (by rfl)]
              rfl
      | strV s => simp [allNum] at hn
      | noneV => simp [allNum] at hn
      | list xs =>
          cases w with
          | num q => simp [cmpStructure] at hc
          | strV s => simp [cmpStructure] at hc
          | noneV => simp [cmpStructure] at hc
          | list ys =>
              have hcl : cmpStructureL xs ys = true := by
                simpa [cmpStructure] using hc
              have hlen : xs.length = ys.length := cmpStructureL_length hcl
              rw [callInNest_pair_eqlen _ _ _ hlen]
              have hnl : allNumL xs = true := by simpa [allNum] using hn
              have hsz : ∀ x ∈ xs, sizeOf x ≤ n := by
                intro x hx
                have h1 := List.sizeOf_lt_of_mem hx
                have h2 : sizeOf (PyVal.list xs) = 1 + sizeOf xs := by simp
                omega
              rw [zipWith_lastVal_aux n ih xs ys hsz hnl hcl]

/-- The final-value delivery is exact: on a fully numeric structure,
`call_in_nest(last_val, vs[-1], vs[0])` returns `vs[-1]` itself whenever
the two structures match. -/
theorem callInNest_lastVal_exact (v w : PyVal) (h1 : allNum v = true)
    (h2 : cmpStructure v w = true) : callInNest lastVal [v, w] = v :=
  lastVal_allNum_fuel (sizeOf v) v w le_rfl h1 h2

theorem mem_le_getLastD {ts : List ℚ} (hs : List.Chain' (· ≤ ·) ts) :
    ∀ x ∈ ts, x ≤ ts.getLastD 0 := by
  induction ts with
  | nil => intro x hx; cases hx
  | cons a l ih =>
      intro x hx
      cases l with
      | nil =>
          simp at hx
          simp [hx]
      | cons b l2 =>
          have hab : a ≤ b := (List.chain'_cons.mp hs).1
          have hs2 : List.Chain' (· ≤ ·) (b :: l2) := (List.chain'_cons.mp hs).2
          have hlast : (a :: b :: l2).getLastD 0 = (b :: l2).getLastD 0 := by
            simp [List.getLastD]
          rcases List.mem_cons.mp hx with rfl | hx2
          · rw [hlast]
            exact le_trans hab (ih hs2 b (by simp))
          · rw [hlast]
            exact ih hs2 x hx2

theorem head_le_mem {a : ℚ} {l : List ℚ} (hs : List.Chain' (· ≤ ·) (a :: l)) :
    ∀ x ∈ a :: l, a ≤ x := by
  intro x hx
  rcases List.mem_cons.mp hx with rfl | hx2
  · exact le_rfl
  · have hp : List.Pairwise (· ≤ ·) (a :: l) :=
      List.chain'_iff_pairwise.mp hs
    exact (List.pairwise_cons.mp hp).1 x hx2

theorem bisectR_eq_zero {ts : List ℚ} {t : ℚ} (h : ∀ x ∈ ts, t < x) :
    bisectR ts t = 0 := by
  unfold bisectR
  apply List.countP_eq_zero.mpr
  intro x hx
  simp only [decide_eq_true_eq]
  exact not_le.mpr (h x hx)

theorem bisectR_eq_length {ts : List ℚ} {t : ℚ} (h : ∀ x ∈ ts, x ≤ t) :
    bisectR ts t = ts.length := by
  unfold bisectR
  apply List.countP_eq_length.mpr
  intro x hx
  simp only [decide_eq_true_eq]
  exact h x hx

/-- C5 counterexample: for `interp_linear((0,0),(10,1))`, after the exact
final value (at `t = 1`) and the immediately following no-value sentinel
(at `t = 2`), a further query does not return the sentinel again — the
generator is exhausted and `send` raises `StopIteration`. -/
theorem C5_counterexample :
    interp_linear [PyVal.list [.num 0, .num 0], PyVal.list [.num 10, .num 1]] =
      some ⟨[PyVal.num 0, PyVal.num 10], [0, 1], ILState.loop⟩ ∧
    ilSend ⟨[PyVal.num 0, PyVal.num 10], [0, 1], ILState.loop⟩ 1 =
      .ok (some (.num 10), ⟨[PyVal.num 0, PyVal.num 10], [0, 1], ILState.afterFinal⟩) ∧
    ilSend ⟨[PyVal.num 0, PyVal.num 10], [0, 1], ILState.afterFinal⟩ 2 =
      .ok (none, ⟨[PyVal.num 0, PyVal.num 10], [0, 1], ILState.exhausted⟩) ∧
    ilSend ⟨[PyVal.num 0, PyVal.num 10], [0, 1], ILState.exhausted⟩ 3 =
      .error .stopIteration := by
  refine ⟨rfl, ?_, rfl, rfl⟩
  have hb : bisectR [(0:ℚ), 1] 1 = 2 := by
    norm_num [bisectR, List.countP_cons, List.countP_nil]
  simp only [ilSend, hb]
  norm_num
  rw [callInNest_of_no_list _ _ (by rfl)]
  norm_num [lastVal]

/-- C5 (amended): `interp_linear((0,0),(10,1))` yields `0, 5, 10` at
`t = 0, 0.5, 1` and the no-value sentinel at `t = 2`; in general, queries
before the first waypoint yield the first value (staying in the loop),
a query at or after the last waypoint delivers the exact final value
once, and the next query — whatever its time — yields the sentinel; the
generator is then exhausted (a further query raises `StopIteration`, see
the counterexample, rather than returning the sentinel again). -/
theorem C5_interp_linear_eval :
    (interp_linear [PyVal.list [.num 0, .num 0], PyVal.list [.num 10, .num 1]] =
        some ⟨[PyVal.num 0, PyVal.num 10], [0, 1], ILState.loop⟩ ∧
      ilSend ⟨[PyVal.num 0, PyVal.num 10], [0, 1], ILState.loop⟩ 0 =
        .ok (some (.num 0), ⟨[PyVal.num 0, PyVal.num 10], [0, 1], ILState.loop⟩) ∧
      ilSend ⟨[PyVal.num 0, PyVal.num 10], [0, 1], ILState.loop⟩ (1/2) =
        .ok (some (.num 5), ⟨[PyVal.num 0, PyVal.num 10], [0, 1], ILState.loop⟩) ∧
      ilSend ⟨[PyVal.num 0, PyVal.num 10], [0, 1], ILState.loop⟩ 1 =
        .ok (some (.num 10),
             ⟨[PyVal.num 0, PyVal.num 10], [0, 1], ILState.afterFinal⟩) ∧
      ilSend ⟨[PyVal.num 0, PyVal.num 10], [0, 1], ILState.afterFinal⟩ 2 =
        .ok (none, ⟨[PyVal.num 0, PyVal.num 10], [0, 1], ILState.exhausted⟩)) ∧
    (∀ (vs : List PyVal) (ts : List ℚ) (t a : ℚ) (l : List ℚ),
      ts = a :: l → List.Chain' (· ≤ ·) ts → t < a →
      ilSend ⟨vs, ts, ILState.loop⟩ t =
        .ok (some (vs.headD .noneV), ⟨vs, ts, ILState.loop⟩)) ∧
    (∀ (vs : List PyVal) (ts : List ℚ) (t : ℚ),
      ts ≠ [] → List.Chain' (· ≤ ·) ts → ts.getLastD 0 ≤ t →
      allNum (vs.getLastD .noneV) = true →
      cmpStructure (vs.getLastD .noneV) (vs.headD .noneV) = true →
      ilSend ⟨vs, ts, ILState.loop⟩ t =
        .ok (some (vs.getLastD .noneV), ⟨vs, ts, ILState.afterFinal⟩)) ∧
    (∀ (vs : List PyVal) (ts : List ℚ) (t : ℚ),
      ilSend ⟨vs, ts, ILState.afterFinal⟩ t =
        .ok (none, ⟨vs, ts, ILState.exhausted⟩)) := by
  refine ⟨⟨rfl, ?_, ?_, ?_, rfl⟩, ?_, ?_, ?_⟩
  · have hb : bisectR [(0:ℚ), 1] 0 = 1 := by
      norm_num [bisectR, List.countP_cons, List.countP_nil]
    simp only [ilSend, hb]
    norm_num
    rw [callInNest_of_no_list _ _ (by rfl)]
    norm_num [interpVal, PyVal.asNum]
  · have hb : bisectR [(0:ℚ), 1] (1/2) = 1 := by
      norm_num [bisectR, List.countP_cons, List.countP_nil]
    simp only [ilSend, hb]
    norm_num
    rw [callInNest_of_no_list _ _ (by rfl)]
    norm_num [interpVal, PyVal.asNum]
  · have hb : bisectR [(0:ℚ), 1] 1 = 2 := by
      norm_num [bisectR, List.countP_cons, List.countP_nil]
    simp only [ilSend, hb]
    norm_num
    rw [callInNest_of_no_list _ _ (by rfl)]
    norm_num [lastVal]
  · intro vs ts t a l hts hs ht
    subst hts
    have hb : bisectR (a :: l) t = 0 :=
      bisectR_eq_zero (fun x hx => lt_of_lt_of_le ht (head_le_mem hs x hx))
    simp [ilSend, hb]
  · intro vs ts t hne hs hlast hnum hcmp
    have hall : ∀ x ∈ ts, x ≤ t :=
      fun x hx => le_trans (mem_le_getLastD hs x hx) hlast
    have hb : bisectR ts t = ts.length := bisectR_eq_length hall
    have hlen : ts.length ≠ 0 := fun hc => hne (List.length_eq_zero.mp hc)
    simp only [ilSend, hb]
    rw [if_neg hlen]
    simp only [if_true]
    rw [callInNest_lastVal_exact _ _ hnum hcmp]
  · intro vs ts t
    rfl

/-- C5 witness: the before-first and at-end general clauses applied to a
two-waypoint instance with a negative query time and a late query time. -/
theorem C5_witness :
    ilSend ⟨[PyVal.num 3, PyVal.num 7], [0, 2], ILState.loop⟩ (-1) =
      .ok (some (.num 3), ⟨[PyVal.num 3, PyVal.num 7], [0, 2], ILState.loop⟩) ∧
    ilSend ⟨[PyVal.num 3, PyVal.num 7], [0, 2], ILState.loop⟩ 5 =
      .ok (some (.num 7), ⟨[PyVal.num 3, PyVal.num 7], [0, 2], ILState.afterFinal⟩) := by
  constructor
  · exact C5_interp_linear_eval.2.1 [PyVal.num 3, PyVal.num 7] [0, 2] (-1) 0 [2]
      rfl (by norm_num) (by norm_num)
  · exact C5_interp_linear_eval.2.2.1 [PyVal.num 3, PyVal.num 7] [0, 2] 5
      (by simp) (by norm_num) (by norm_num [List.getLastD]) rfl rfl

/-! ## GraphicsManager lemmas and claims C1, C6, C7, C8, C10 -/

/-- A successful association-list lookup finds one of the stored pairs. -/
theorem lookup_mem {α β : Type} [BEq α] (l : List (α × β)) (a : α) (b : β)
    (h : l.lookup a = some b) : ∃ k, (k, b) ∈ l := by
  induction l with
  | nil => simp [List.lookup] at h
  | cons e es ih =>
      obtain ⟨k, v⟩ := e
      rw [List.lookup] at h
      by_cases hak : (a == k) = true
      · rw [hak] at h
        exact ⟨k, by simp_all⟩
      · rw [Bool.not_eq_true] at hak
        rw [hak] at h
        obtain ⟨k2, hk2⟩ := ih h
        exact ⟨k2, List.mem_cons_of_mem _ hk2⟩

/-- After `fastdraw`, no member graphic contributes a dirty rectangle:
`was_visible` has been set to `visible` and drawn graphics recorded their
`last_rect`. -/
theorem graphicDirtyRects_fastdraw (s : GMState) (d : List PRect) :
    graphicDirtyRects (fastdraw s d).2 = [] := by
  simp only [fastdraw, graphicDirtyRects, gmAllGraphics]
  rw [List.flatMap_eq_nil_iff]
  intro x hx
  obtain ⟨e2, he2, hxe⟩ := List.mem_flatMap.mp hx
  obtain ⟨e, _, rfl⟩ := List.mem_map.mp he2
  obtain ⟨g, _, rfl⟩ := List.mem_map.mp hxe
  cases hv : g.visible <;> simp [hv]

/-- `fastdraw` leaves `layers`, the surface flag and the handed-in dirty
list of the state unchanged. -/
theorem fastdraw_snd_fields (s : GMState) (d : List PRect) :
    (fastdraw s d).2.layers = s.layers ∧
    (fastdraw s d).2.surfacePresent = s.surfacePresent ∧
    (fastdraw s d).2.gmDirty = s.gmDirty := ⟨rfl, rfl, rfl⟩

/-- C1: `GraphicsManager.draw()` returns a falsy value when called twice
in a row with no intervening changes; a returned rectangle list is
non-empty and has at most 60 entries; `True` is returned exactly above
the 60-rectangle whole-surface threshold. -/
theorem C1_draw_contract (s : GMState) :
    ((gmDraw (gmDraw s).2).1.falsy = true) ∧
    (∀ rs, (gmDraw s).1 = .rects rs → rs ≠ [] ∧ rs.length ≤ 60) ∧
    ((gmDraw s).1 = .whole → 60 < (dirtyRectsOf s).length) := by
  by_cases h0 : (s.layers.isEmpty || !s.surfacePresent) = true
  · simp [gmDraw, h0, DrawResult.falsy]
  · have hdraw : gmDraw s = fastdraw { s with gmDirty := [] } s.gmDirty := by
      rw [gmDraw, if_neg h0]
    have hrs : s.gmDirty ++ graphicDirtyRects { s with gmDirty := [] } = dirtyRectsOf s := rfl
    refine ⟨?_, ?_, ?_⟩
    · rw [hdraw, gmDraw]
      rw [if_neg (by
        rw [(fastdraw_snd_fields _ _).1, (fastdraw_snd_fields _ _).2.1]
        exact h0)]
      rw [fastdraw]
      have h2 : ((fastdraw { s with gmDirty := [] } s.gmDirty).2.gmDirty ++
          graphicDirtyRects { (fastdraw { s with gmDirty := [] } s.gmDirty).2 with
            gmDirty := [] }) = [] := by
        have he : graphicDirtyRects { (fastdraw { s with gmDirty := [] } s.gmDirty).2 with
            gmDirty := [] } = graphicDirtyRects (fastdraw { s with gmDirty := [] } s.gmDirty).2 := rfl
        rw [he, graphicDirtyRects_fastdraw, (fastdraw_snd_fields _ _).2.2]
        rfl
      rw [h2]
      rfl
    · intro rs hr
      rw [hdraw, fastdraw] at hr
      rw [hrs] at hr
      by_cases he : (dirtyRectsOf s).isEmpty = true
      · rw [if_pos he] at hr
        exact absurd hr (by simp)
      · rw [if_neg he] at hr
        by_cases hn : 60 < (dirtyRectsOf s).length
        · rw [if_pos hn] at hr
          exact absurd hr (by simp)
        · rw [if_neg hn] at hr
          cases hr
          exact ⟨by simpa [List.isEmpty_iff] using he, by omega⟩
    · intro hw
      rw [hdraw, fastdraw, hrs] at hw
      by_cases he : (dirtyRectsOf s).isEmpty = true
      · rw [if_pos he] at hw
        exact absurd hw (by simp)
      · rw [if_neg he] at hw
        by_cases hn : 60 < (dirtyRectsOf s).length
        · exact hn
        · rw [if_neg hn] at hw
          exact absurd hw (by simp)

/-- C6: adding a graphic whose layer key is the reserved `None` sentinel
while it is not the overlay raises `ValueError`, and removing a graphic
that is not a member (its id in no layer's set) leaves the manager state
exactly as it was. -/
theorem C6_add_rejects_rm_noop (s : GMState) (ga gr : GMGraphic)
    (hga : ga.layer = none) (hov : s.overlay ≠ some ga.gid)
    (hs : sortLayers s.layers = s.layers)
    (hgr : ∀ x ∈ gmAllGraphics s, x.gid ≠ gr.gid) :
    addG s ga = .error .valueError ∧ rmG s gr = s := by
  refine ⟨by rw [addG, if_pos ⟨hga, hov⟩], ?_⟩
  rw [rmG]
  by_cases hl : gr.layer ∈ s.layers
  · rw [if_pos hl]
    cases hlk : s.graphics.lookup gr.layer with
    | none =>
        dsimp only
        rw [hs]
    | some gs =>
        have hnot : gr.gid ∉ gs.map GMGraphic.gid := by
          intro hmem
          obtain ⟨x, hx, hxg⟩ := List.mem_map.mp hmem
          obtain ⟨k, hk⟩ := lookup_mem _ _ _ hlk
          exact hgr x (List.mem_flatMap.mpr ⟨(k, gs), hk, hx⟩) hxg
        dsimp only
        rw [if_neg hnot, hs]
  · rw [if_neg hl, hs]

/-- Witness for C6: on a concrete one-layer state, adding a `None`-layer
non-overlay graphic errors and removing a non-member changes nothing. -/
theorem C6_witness :
    addG gmEx ⟨5, none, ⟨0, 0, 1, 1⟩, ⟨0, 0, 1, 1⟩, true, false⟩ = .error .valueError ∧
    rmG gmEx ⟨7, some 2, ⟨0, 0, 1, 1⟩, ⟨0, 0, 1, 1⟩, true, false⟩ = gmEx :=
  C6_add_rejects_rm_noop gmEx ⟨5, none, ⟨0, 0, 1, 1⟩, ⟨0, 0, 1, 1⟩, true, false⟩
    ⟨7, some 2, ⟨0, 0, 1, 1⟩, ⟨0, 0, 1, 1⟩, true, false⟩
    rfl (by decide) (by decide) (by decide)

set_option maxHeartbeats 2000000 in
/-- C7: on a graphic whose `rotate` stage was never applied (its stored
entry is `(None, surface, None, None)`, sits last in `_transforms`, and
the rect still has the surface's size), rotating by an angle below
`rotate_threshold` is a no-op: same surface, same rect. -/
theorem C7_small_rotation_noop (env : GEnv) (fuel : ℕ) (g : Graphic)
    (angle : ℚ) (about : Option (ℚ × ℚ)) (p : ℕ)
    (hfind : g.transforms.findIdx? (fun e => e.1 == "rotate") = some p)
    (hp : p + 1 = g.transforms.length)
    (hentry : g.transforms.getD p dummyEntry =
      ("rotate", { args := none, sfc := g.surface, applyFx := none, undoFx := none }))
    (hlook : g.transforms.lookup "rotate" =
      some { args := none, sfc := g.surface, applyFx := none, undoFx := none })
    (hw : g.rect.w = g.surface.wd) (hh : g.rect.h = g.surface.ht)
    (hang : |angle| < g.rotateThreshold) :
    (rotateG env (fuel + 1) g angle about).surface = g.surface ∧
    (rotateG env (fuel + 1) g angle about).rect = g.rect := by
  have hplt : p < g.transforms.length := by omega
  have hdrop : g.transforms.drop p = [g.transforms.getD p dummyEntry] := by
    rw [List.drop_eq_getElem_cons hplt]
    rw [List.getD_eq_getElem g.transforms dummyEntry hplt]
    congr 1
    apply List.drop_eq_nil_of_le
    omega
  have key : rotateG env (fuel + 1) g angle about = setSfc g g.surface := by
    rw [rotateG]
    simp only [transformG, tkey, hfind, hdrop, hentry, runBuiltin, rotateBk,
      List.reverse_cons, List.reverse_nil, List.nil_append, List.foldl_cons,
      List.foldl_nil, hang, if_true, if_false, Bool.false_eq_true, ite_false,
      decide_eq_true_eq]
  rw [key]
  refine ⟨rfl, ?_⟩
  show (⟨g.rect.x, g.rect.y,
        (sfcBeforeTransform { g with
          opaqueG := !(g.surface.alphaF) && !(g.surface.ckeyF),
          surface := g.surface } "rotate").wd,
        (sfcBeforeTransform { g with
          opaqueG := !(g.surface.alphaF) && !(g.surface.ckeyF),
          surface := g.surface } "rotate").ht⟩ : PRect) = g.rect
  simp only [sfcBeforeTransform, hlook]
  rw [← hw, ← hh]

/-- Witness for C7: a fresh 10×10 graphic rotated by 0.01 (below the
default threshold 2π/500 ≈ 0.01257) keeps its surface and rect. -/
theorem C7_witness :
    (rotateG trivEnv 1 (mkGraphic (.mkBase 10 10 false false) 0 0) (1/100) none).surface
        = (mkGraphic (.mkBase 10 10 false false) 0 0).surface ∧
    (rotateG trivEnv 1 (mkGraphic (.mkBase 10 10 false false) 0 0) (1/100) none).rect
        = (mkGraphic (.mkBase 10 10 false false) 0 0).rect :=
  C7_small_rotation_noop trivEnv 0 (mkGraphic (.mkBase 10 10 false false) 0 0) (1/100) none 3
    (by decide) (by decide) (by decide) (by decide) (by decide) (by decide)
    (by norm_num [mkGraphic, setSfc, rotateThresholdDefault, abs_of_pos])

/-- C8: the `rect` setter does not round-trip on a size change: setting
`rect = (5, 5, 20, 20)` on a fresh 10×10 graphic at (0, 0) only calls
`resize(20, 20)`, and the first `resize` on a fresh graphic re-derives the
rect from the stale pre-`rotate` entry, so reading `rect` back yields
`(0, 0, 10, 10)` — neither the requested position nor the requested
size. -/
theorem C8_rect_setter_loses_position :
    (setRectG trivEnv 4 (mkGraphic (.mkBase 10 10 false false) 0 0)
        ⟨5, 5, 20, 20⟩).rect = ⟨0, 0, 10, 10⟩ ∧
    (⟨0, 0, 10, 10⟩ : PRect) ≠ ⟨5, 5, 20, 20⟩ := by
  refine ⟨?_, by decide⟩
  have hstep : setRectG trivEnv 4 (mkGraphic (.mkBase 10 10 false false) 0 0) ⟨5, 5, 20, 20⟩ =
      transformG trivEnv 4 (mkGraphic (.mkBase 10 10 false false) 0 0)
        (.resizeA (some 20) (some 20) ((0:ℚ), (0:ℚ))) := rfl
  rw [hstep]
  have hbk : resizeBk (.mkBase 10 10 false false) none (some 20) (some 20) ((0:ℚ), (0:ℚ)) =
      (some (.scaledS (.mkBase 10 10 false false) 20 20),
       some (.resizeFx 2 2 0 0), some (.resizeFx 2 2 0 0)) := by
    norm_num [resizeBk, ir, Surface.wd, Surface.ht]
  simp only [transformG, tkey]
  rw [show (mkGraphic (.mkBase 10 10 false false) 0 0).transforms.findIdx?
      (fun e => e.1 == "resize") = some 2 from by decide]
  simp only [runBuiltin, mkGraphic, setSfc, sfcBeforeTransform, Surface.wd, Surface.ht,
    Surface.alphaF, Surface.ckeyF, dummyEntry, applyEffect, undoEffect, mkDirtyG,
    PRect.move, List.getD, List.get?, Option.getD, List.foldl, List.drop, List.reverse,
    List.reverseAux, List.take, List.set, List.map, List.lookup]
  rw [hbk]
  norm_num
  rw [if_neg (by decide :
    ¬ ((Surface.mkBase 10 10 false false).scaledS 20 20 = Surface.mkBase 10 10 false false))]

/-- C10: the `flipped_y` getter returns the x-axis flag (`_flipped[0]`,
and the `@flipped_x.setter` rebinding makes the property read
`flipped_x` either way), so after `flipped_y = True` on a fresh graphic
the stored flags are `(False, True)` yet reading `flipped_y` yields
`False` — the round-trip fails. -/
theorem C10_flipped_y_reads_x_flag :
    (∀ g : Graphic, flipped_y g = flipped_x g) ∧
    ((set_flipped_y trivEnv 1 (mkGraphic (.mkBase 10 10 false false) 0 0) true).flippedG
        = (false, true) ∧
     flipped_y (set_flipped_y trivEnv 1 (mkGraphic (.mkBase 10 10 false false) 0 0) true)
        = false) :=
  ⟨fun _ => rfl, rfl, rfl⟩
